import Mathlib

/-!
# SPOT_capture: the generated private headers

A verification development for the two generated headers

* `Template_Files/ShowIMU_RED_ert_rtw/ShowIMU_RED_private.h`
* `Template_Files/TestingPins_ert_rtw/TestingPins_private.h`

The headers consist of preprocessor directives, one function-like definition
(`rtmSetTFinal`) and one `extern` declaration (`rt_atan2d_snf`).  The
development has three parts:

1. a model of the preprocessor directives that occur (conditional groups,
   `#define`, `#include`, text lines) and the two headers as directive lists;
2. `rtmSetTFinal`: the assignment it denotes on the runtime-model structure,
   and the macro replacement of its invocations;
3. the declared helper `rt_atan2d_snf`.

All definitions come first, the lemmas and theorems follow.
-/

namespace SPOT

/-! ## Part 1: the preprocessor -/

/-- A preprocessing token: an identifier, a number, or a punctuator, each with
its spelling. -/
inductive Tok where
  | id (s : String)
  | num (s : String)
  | p (s : String)
  deriving DecidableEq

/-- The right-hand side of a `#define`: the parameter list (`none` for an
object-like definition) and the replacement list. -/
structure MacroDef where
  params : Option (List String)
  body : List Tok
  deriving DecidableEq

/-- The definitions in force at a point of the translation unit. -/
abbrev MacroEnv := String → Option MacroDef

/-- The environment after `#define n d`. -/
def defineMacro (n : String) (d : MacroDef) (env : MacroEnv) : MacroEnv :=
  fun m => if m = n then some d else env m

/-- One logical source line of a header, comments removed: `#ifndef name`,
`#define name ...`, `#include "file"`, `#endif`, or a line of text. -/
inductive Line where
  | ifNotDefined (name : String)
  | define (name : String) (d : MacroDef)
  | incl (file : String)
  | endif
  | text (toks : List Tok)
  deriving DecidableEq

/-- What a header contributes to the translation unit, in order: a definition
that was executed, an `#include` that was executed, a text line that was
passed on. -/
inductive Event where
  | defined (name : String) (d : MacroDef)
  | included (file : String)
  | declared (toks : List Tok)
  deriving DecidableEq

/-- Preprocessor state between two lines of the including file: the macro
environment and what the repository headers have contributed so far. -/
structure PPState where
  env : MacroEnv
  out : List Event

/-- Diagnostics of the directives that occur in the headers. -/
inductive PPError where
  | redefined (name : String)
  | strayEndif
  | unterminated
  deriving DecidableEq

/-- A line is processed only when every enclosing conditional group is taken. -/
def active (stack : List Bool) : Bool := stack.all id

/-- One line.  The first component of `c` holds one flag per open `#ifndef` of
the current file.  The function `ext` gives, for the files included by the
headers that are not part of the sources (`rtwtypes.h`, `multiword_types.h`,
`builtin_typeid_types.h`), the effect of including the file on the macro
environment.  A `#define` of a name that is already defined
with a different definition is a constraint violation; with the same
definition it is accepted. -/
def step (ext : String → MacroEnv → MacroEnv) (l : Line) (c : List Bool × PPState) :
    Except PPError (List Bool × PPState) :=
  match l with
  | .ifNotDefined n => .ok ((c.2.env n).isNone :: c.1, c.2)
  | .endif =>
    match c.1 with
    | [] => .error .strayEndif
    | _ :: st => .ok (st, c.2)
  | .define n d =>
    if active c.1 then
      match c.2.env n with
      | none => .ok (c.1, ⟨defineMacro n d c.2.env, c.2.out ++ [.defined n d]⟩)
      | some d0 =>
        if d0 = d then .ok (c.1, ⟨c.2.env, c.2.out ++ [.defined n d]⟩)
        else .error (.redefined n)
    else .ok c
  | .incl f =>
    if active c.1 then .ok (c.1, ⟨ext f c.2.env, c.2.out ++ [.included f]⟩)
    else .ok c
  | .text t =>
    if active c.1 then .ok (c.1, ⟨c.2.env, c.2.out ++ [.declared t]⟩)
    else .ok c

/-- The lines of a file, in order. -/
def runLines (ext : String → MacroEnv → MacroEnv) :
    List Line → List Bool × PPState → Except PPError (List Bool × PPState)
  | [], c => .ok c
  | l :: ls, c =>
    match step ext l c with
    | .ok c1 => runLines ext ls c1
    | .error e => .error e

/-- The directive `#include "h"` for a header `h` of the repository: its lines
are processed with a fresh conditional stack, which must be empty again when
the file ends. -/
def includeHeader (ext : String → MacroEnv → MacroEnv) (h : List Line) (s : PPState) :
    Except PPError PPState :=
  match runLines ext h ([], s) with
  | .ok ([], s1) => .ok s1
  | .ok (_ :: _, _) => .error .unterminated
  | .error e => .error e

/-- The include guard of `ShowIMU_RED_private.h`. -/
def RTW_HEADER_ShowIMU_RED_private_h_ : String := "RTW_HEADER_ShowIMU_RED_private_h_"

/-- The include guard of `TestingPins_private.h`. -/
def RTW_HEADER_TestingPins_private_h_ : String := "RTW_HEADER_TestingPins_private_h_"

/-- The definition `#define GUARD` (object-like, empty replacement list). -/
def guardDef : MacroDef := ⟨none, []⟩

/-- The definition
`# define rtmSetTFinal(rtm, val)        ((rtm)->Timing.tFinal = (val))`,
the same line 28 in both headers. -/
def rtmSetTFinalDef : MacroDef :=
  ⟨some ["rtm", "val"],
   [.p "(", .p "(", .id "rtm", .p ")", .p "->", .id "Timing", .p ".", .id "tFinal", .p "=",
    .p "(", .id "val", .p ")", .p ")"]⟩

/-- The line `extern real_T rt_atan2d_snf(real_T u0, real_T u1);`. -/
def rt_atan2d_snf_decl : List Tok :=
  [.id "extern", .id "real_T", .id "rt_atan2d_snf", .p "(", .id "real_T", .id "u0", .p ",",
    .id "real_T", .id "u1", .p ")", .p ";"]

/-- The file `ShowIMU_RED_private.h`, lines 21 to 30. -/
def ShowIMU_RED_private_h : List Line :=
  [ .ifNotDefined "RTW_HEADER_ShowIMU_RED_private_h_",
    .define "RTW_HEADER_ShowIMU_RED_private_h_" guardDef,
    .incl "rtwtypes.h",
    .incl "multiword_types.h",
    .ifNotDefined "rtmSetTFinal",
    .define "rtmSetTFinal" rtmSetTFinalDef,
    .endif,
    .endif ]

/-- The file `TestingPins_private.h`, lines 20 to 33. -/
def TestingPins_private_h : List Line :=
  [ .ifNotDefined "RTW_HEADER_TestingPins_private_h_",
    .define "RTW_HEADER_TestingPins_private_h_" guardDef,
    .incl "rtwtypes.h",
    .incl "builtin_typeid_types.h",
    .incl "multiword_types.h",
    .ifNotDefined "rtmSetTFinal",
    .define "rtmSetTFinal" rtmSetTFinalDef,
    .endif,
    .text rt_atan2d_snf_decl,
    .endif ]

/-- The outside headers do not undefine `n`. -/
def KeepsDefined (ext : String → MacroEnv → MacroEnv) (n : String) : Prop :=
  ∀ f env, (env n).isSome → (ext f env n).isSome

/-- The outside headers leave the definition of `n`, or its absence, as it is. -/
def Keeps (ext : String → MacroEnv → MacroEnv) (n : String) : Prop :=
  ∀ f env, ext f env n = env n

/-- The environment in which `ShowIMU_RED_private.h` reaches its
`#ifndef rtmSetTFinal` when its guard was not defined. -/
def envShowIMU (ext : String → MacroEnv → MacroEnv) (env : MacroEnv) : MacroEnv :=
  ext "multiword_types.h"
    (ext "rtwtypes.h" (defineMacro RTW_HEADER_ShowIMU_RED_private_h_ guardDef env))

/-- The environment in which `TestingPins_private.h` reaches its
`#ifndef rtmSetTFinal` when its guard was not defined. -/
def envTestingPins (ext : String → MacroEnv → MacroEnv) (env : MacroEnv) : MacroEnv :=
  ext "multiword_types.h" (ext "builtin_typeid_types.h" (ext "rtwtypes.h"
    (defineMacro RTW_HEADER_TestingPins_private_h_ guardDef env)))

/-- The state after `#include "ShowIMU_RED_private.h"`, in closed form (shown
equal to `includeHeader` on the header below). -/
def afterShowIMU (ext : String → MacroEnv → MacroEnv) (s : PPState) : PPState :=
  match s.env RTW_HEADER_ShowIMU_RED_private_h_ with
  | some _ => s
  | none =>
    match envShowIMU ext s.env "rtmSetTFinal" with
    | some _ =>
      ⟨envShowIMU ext s.env,
       s.out ++ [.defined RTW_HEADER_ShowIMU_RED_private_h_ guardDef, .included "rtwtypes.h",
         .included "multiword_types.h"]⟩
    | none =>
      ⟨defineMacro "rtmSetTFinal" rtmSetTFinalDef (envShowIMU ext s.env),
       s.out ++ [.defined RTW_HEADER_ShowIMU_RED_private_h_ guardDef, .included "rtwtypes.h",
         .included "multiword_types.h", .defined "rtmSetTFinal" rtmSetTFinalDef]⟩

/-- The state after `#include "TestingPins_private.h"`, in closed form (shown
equal to `includeHeader` on the header below). -/
def afterTestingPins (ext : String → MacroEnv → MacroEnv) (s : PPState) : PPState :=
  match s.env RTW_HEADER_TestingPins_private_h_ with
  | some _ => s
  | none =>
    match envTestingPins ext s.env "rtmSetTFinal" with
    | some _ =>
      ⟨envTestingPins ext s.env,
       s.out ++ [.defined RTW_HEADER_TestingPins_private_h_ guardDef, .included "rtwtypes.h",
         .included "builtin_typeid_types.h", .included "multiword_types.h",
         .declared rt_atan2d_snf_decl]⟩
    | none =>
      ⟨defineMacro "rtmSetTFinal" rtmSetTFinalDef (envTestingPins ext s.env),
       s.out ++ [.defined RTW_HEADER_TestingPins_private_h_ guardDef, .included "rtwtypes.h",
         .included "builtin_typeid_types.h", .included "multiword_types.h",
         .defined "rtmSetTFinal" rtmSetTFinalDef, .declared rt_atan2d_snf_decl]⟩

/-- An instance of the outside headers, for evaluation: `rtwtypes.h` defines
its own guard `RTWTYPES_H`, the other files define nothing. -/
def extSample (f : String) (env : MacroEnv) : MacroEnv :=
  if f = "rtwtypes.h" then defineMacro "RTWTYPES_H" guardDef env else env

/-- The empty translation unit: no definition, no output. -/
def emptyState : PPState := ⟨fun _ => none, []⟩

/-- A translation unit whose including file has already defined
`rtmSetTFinal`, with another body. -/
def overrideState : PPState :=
  ⟨defineMacro "rtmSetTFinal" ⟨some ["rtm", "val"], [.p "(", .id "void", .p ")", .num "0"]⟩
    (fun _ => none), []⟩

/-! ## Part 2: `rtmSetTFinal` -/

/-- The member `Timing` of the runtime model.  The C++ declaration of the
runtime model is in a generated file that is not among the sources, so the
type `V` of `tFinal` and the type `τ` of the remaining members of `Timing` are
parameters. -/
structure RTTiming (V τ : Type) where
  tFinal : V
  rest : τ

/-- The runtime model: the member `Timing` and the remaining members, of a
type `ρ` that is a parameter. -/
structure RTModel (V τ ρ : Type) where
  Timing : RTTiming V τ
  rest : ρ

/-- The expression `((rtm)->Timing.tFinal = (val))` on the object that `rtm`
points to.  The definition has no types of its own: `val` has whatever type
`W` the argument has, and the assignment converts it to the type `V` of
`Timing.tFinal`; `conv` is that conversion.  The result is the value of the
assignment expression, which is the value of the left operand after the
assignment, and the object after it. -/
def rtmSetTFinal {W V τ ρ : Type} (conv : W → V) (rtm : RTModel V τ ρ) (val : W) :
    V × RTModel V τ ρ :=
  (conv val, { rtm with Timing := { rtm.Timing with tFinal := conv val } })

/-- The number of bits by which the binary numeral of `a` is longer than 53
bits, for at most `fuel` bits. -/
def excessBits : Nat → Nat → Nat
  | 0, _ => 0
  | fuel + 1, a => if a < 2 ^ 53 then 0 else 1 + excessBits fuel (a / 2)

/-- The conversion of a `long long` to `double` (53-bit significand, round to
nearest, ties to even); a `double` with an integral value is represented by
that value.  It is the conversion that the assignment applies when `val` is a
`long long` and `Timing.tFinal` is a `double`, the type that the generated
`rtwtypes.h`, which is not among the sources, gives `time_T`. -/
def longLongToDouble (n : Int) : Int :=
  let a := n.natAbs
  let k := excessBits 11 a
  if k = 0 then n
  else
    let q := a / 2 ^ k
    let r := a % 2 ^ k
    let half := 2 ^ (k - 1)
    let up := if half < r ∨ (r = half ∧ q % 2 = 1) then 1 else 0
    n.sign * (((q + up) * 2 ^ k : Nat) : Int)

/-- A runtime model with `tFinal = 0` and no other members, for evaluation. -/
def sampleModel : RTModel Int Unit Unit := ⟨⟨0, ()⟩, ()⟩

/-! ### Macro replacement

The replacement of an invocation as the preprocessor performs it: the
arguments are collected, each argument is completely macro-replaced where the
replacement list uses it, the result is substituted, the names that must not
be replaced again are recorded in the tokens (their hide sets), and the result
is rescanned together with the tokens that follow. -/

/-- A token in the course of macro replacement: the token and the names of the
definitions that must not replace it any more. -/
structure HTok where
  tok : Tok
  hide : List String
  deriving DecidableEq

/-- Tokens as they stand in the source or in a replacement list. -/
def plain (ts : List Tok) : List HTok := ts.map (fun t => ⟨t, []⟩)

/-- The names `hs` are added to the hide set of every token. -/
def hsadd (hs : List String) (ts : List HTok) : List HTok :=
  ts.map (fun t => ⟨t.tok, hs ++ t.hide⟩)

/-- The arguments of an invocation, read after its opening parenthesis up to
the matching closing parenthesis: the arguments, the hide set of the closing
parenthesis and the tokens after it.  A comma separates arguments only outside
inner parentheses. -/
def collectArgs : Nat → List HTok → List (List HTok) → List HTok →
    Option (List (List HTok) × List String × List HTok)
  | _, _, _, [] => none
  | depth, cur, done, t :: ts =>
    if t.tok = .p "(" then collectArgs (depth + 1) (cur ++ [t]) done ts
    else if t.tok = .p ")" then
      match depth with
      | 0 => some (done ++ [cur], t.hide, ts)
      | d + 1 => collectArgs d (cur ++ [t]) done ts
    else if t.tok = .p "," ∧ depth = 0 then collectArgs 0 [] (done ++ [cur]) ts
    else collectArgs depth (cur ++ [t]) done ts

/-- The argument that is bound to the identifier `x`, if `x` is a parameter. -/
def argOf (params : List String) (args : List (List HTok)) (x : String) :
    Option (List HTok) :=
  (params.zip args).lookup x

/-- Argument substitution: every identifier of the replacement list that is a
parameter is replaced by the complete macro replacement `ex` of the
corresponding argument. -/
def substParams (ex : List HTok → Option (List HTok)) (params : List String)
    (args : List (List HTok)) : List Tok → Option (List HTok)
  | [] => some []
  | .id x :: ts =>
    match argOf params args x with
    | some a =>
      match ex a, substParams ex params args ts with
      | some ea, some r => some (ea ++ r)
      | _, _ => none
    | none => (substParams ex params args ts).map (fun r => ⟨.id x, []⟩ :: r)
  | t :: ts => (substParams ex params args ts).map (fun r => ⟨t, []⟩ :: r)

/-- The definition uses `#`, `##` or a variable argument list.  None of these
occurs in the two headers. -/
def usesHashOps (d : MacroDef) : Bool :=
  d.body.any (fun t => t = .p "#" || t = .p "##") ||
    (d.params.getD []).any (fun x => x = "...")

/-- The number of arguments fits the parameter list. -/
def arityOk (ps : List String) (args : List (List HTok)) : Bool :=
  ps.length = args.length || (ps = [] && args = [[]])

/-- The replacement of an invocation of `d` with the arguments `args`, before
the rescan.  For the definitions of the translation unit that use `#`, `##` or
a variable argument list the substitution is the parameter `other`. -/
def replacement (other : MacroDef → List (List HTok) → Option (List HTok))
    (ex : List HTok → Option (List HTok)) (d : MacroDef) (args : List (List HTok)) :
    Option (List HTok) :=
  if usesHashOps d then other d args
  else
    match d.params with
    | none => some (plain d.body)
    | some ps => if arityOk ps args then substParams ex ps args d.body else none

/-- The definition that replaces the token `t`, if there is one: `t` is an
identifier that is defined and whose hide set does not hold its own name. -/
def trigger (env : MacroEnv) (t : HTok) : Option (String × MacroDef) :=
  match t.tok with
  | .id x => if x ∈ t.hide then none else (env x).map (fun d => (x, d))
  | _ => none

/-- The name `x` of the function-like definition `d` at the token `t`,
followed by the tokens `ts`: an invocation when an opening parenthesis
follows, the name itself otherwise. -/
def invoke (other : MacroDef → List (List HTok) → Option (List HTok))
    (rec : List HTok → Option (List HTok)) (x : String) (d : MacroDef) (t : HTok)
    (ts : List HTok) : Option (List HTok) :=
  match ts with
  | [] => some [t]
  | t2 :: ts2 =>
    if t2.tok = .p "(" then
      match collectArgs 0 [] [] ts2 with
      | some (args, hs2, ts3) =>
        match replacement other rec d args with
        | some body => rec (hsadd (x :: t.hide.filter (fun h => h ∈ hs2)) body ++ ts3)
        | none => none
      | none => none
    else (rec ts).map (fun r => t :: r)

/-- One step of macro replacement on a token sequence, with `rec` for the
rescan and for the replacement of the arguments. -/
def expandStep (env : MacroEnv) (other : MacroDef → List (List HTok) → Option (List HTok))
    (rec : List HTok → Option (List HTok)) : List HTok → Option (List HTok)
  | [] => some []
  | t :: ts =>
    match trigger env t with
    | none => (rec ts).map (fun r => t :: r)
    | some (x, d) =>
      match d.params with
      | none =>
        match replacement other rec d [] with
        | some body => rec (hsadd (x :: t.hide) body ++ ts)
        | none => none
      | some _ => invoke other rec x d t ts

/-- Complete macro replacement in at most `n` steps. -/
def expand (env : MacroEnv) (other : MacroDef → List (List HTok) → Option (List HTok)) :
    Nat → List HTok → Option (List HTok)
  | 0 => fun _ => none
  | n + 1 => expandStep env other (expand env other n)

/-- Every result of `f` is a result of `g`. -/
def ExLe (f g : List HTok → Option (List HTok)) : Prop :=
  ∀ ts r, f ts = some r → g ts = some r

/-- The token sequence `ts` is completely macro-replaced to `R`. -/
def Expands (env : MacroEnv) (other : MacroDef → List (List HTok) → Option (List HTok))
    (ts R : List HTok) : Prop :=
  ∃ n, expand env other n ts = some R

/-- The nesting depth after the tokens `ts`, starting at depth `d`; `none` when
a closing parenthesis has no partner. -/
def depthAfter : Nat → List Tok → Option Nat
  | d, [] => some d
  | d, t :: ts =>
    if t = .p "(" then depthAfter (d + 1) ts
    else if t = .p ")" then
      match d with
      | 0 => none
      | d1 + 1 => depthAfter d1 ts
    else depthAfter d ts

/-- Every parenthesis of `ts` has its partner in `ts`, as in every
expression. -/
def balanced (ts : List Tok) : Prop := depthAfter 0 ts = some 0

/-- The tokens up to the closing parenthesis that matches an opening one read
before, and the tokens after it. -/
def matchClose : Nat → List Tok → List Tok → Option (List Tok × List Tok)
  | _, _, [] => none
  | d, acc, t :: ts =>
    if t = .p "(" then matchClose (d + 1) (acc ++ [t]) ts
    else if t = .p ")" then
      match d with
      | 0 => some (acc, ts)
      | d1 + 1 => matchClose d1 (acc ++ [t]) ts
    else matchClose d (acc ++ [t]) ts

/-- The parenthesised group that starts the token list: its content and the
tokens after its closing parenthesis. -/
def groupAt : List Tok → Option (List Tok × List Tok)
  | [] => none
  | t :: ts => if t = .p "(" then matchClose 0 [] ts else none

/-- No definition with `#` or `##`, for evaluation. -/
def noOther : MacroDef → List (List HTok) → Option (List HTok) := fun _ _ => none

/-- A translation unit with `#define RTM (&model)` and `#define TF 10.0`
besides `rtmSetTFinal`, for evaluation. -/
def envArgs : MacroEnv :=
  defineMacro "RTM" ⟨none, [.p "(", .p "&", .id "model", .p ")"]⟩
    (defineMacro "TF" ⟨none, [.num "10.0"]⟩
      (defineMacro "rtmSetTFinal" rtmSetTFinalDef (fun _ => none)))

/-! ### Reading a token list as an expression

In addition to the group structure above: a fragment of the C++ expression
grammar, in which the expansion can be read as an expression.  It has primary
expressions (identifier, literal, parenthesised expression), the suffix
operators `->`, `.`, `[ ]`, `++`, `--`, calls, the unary operators written
before the operand, the binary operators with their precedences, the
conditional operator, assignment (right-associative) and the comma operator.
Casts, `sizeof`, qualified names, the pointer-to-member operators and the
other forms that need type names are not part of the fragment; what is proved
for all arguments does not use it. -/

/-- Expressions of the fragment. -/
inductive Expr where
  | var (x : String)
  | const (c : String)
  | paren (e : Expr)
  | arrow (e : Expr) (f : String)
  | dot (e : Expr) (f : String)
  | index (e i : Expr)
  | call0 (f : Expr)
  | call (f args : Expr)
  | postOp (op : String) (e : Expr)
  | unary (op : String) (e : Expr)
  | binary (op : String) (l r : Expr)
  | cond (c t e : Expr)
  | assign (op : String) (l r : Expr)
  | comma (l r : Expr)
  deriving DecidableEq

/-- The unary operators that are written before the operand. -/
def isUnaryOp (s : String) : Bool :=
  s = "-" || s = "+" || s = "!" || s = "~" || s = "*" || s = "&" || s = "++" || s = "--"

/-- The assignment operators of the fragment. -/
def isAssignOp (s : String) : Bool :=
  s = "=" || s = "+=" || s = "-=" || s = "*=" || s = "/=" || s = "%=" || s = "<<=" ||
    s = ">>=" || s = "&=" || s = "^=" || s = "|="

/-- The precedence of a binary operator; a larger number binds tighter. -/
def binPrec (s : String) : Option Nat :=
  if s = "*" || s = "/" || s = "%" then some 10
  else if s = "+" || s = "-" then some 9
  else if s = "<<" || s = ">>" then some 8
  else if s = "<" || s = ">" || s = "<=" || s = ">=" then some 7
  else if s = "==" || s = "!=" then some 6
  else if s = "&" then some 5
  else if s = "^" then some 4
  else if s = "|" then some 3
  else if s = "&&" then some 2
  else if s = "||" then some 1
  else none

/-- The nonterminals; the loops carry the operand read so far. -/
inductive Mode where
  | primary
  | postLoop (e : Expr)
  | unary
  | binary (m : Nat)
  | binLoop (l : Expr) (m : Nat)
  | assign
  | expr
  | exprLoop (l : Expr)

/-- A reader for every nonterminal: the expression read and the tokens left. -/
abbrev ParseFn := Mode → List Tok → Option (Expr × List Tok)

/-- Rule: identifier, literal, or `( expression )`. -/
def parsePrimary (rec : ParseFn) (ts : List Tok) : Option (Expr × List Tok) :=
  match ts with
  | .id x :: r => some (.var x, r)
  | .num c :: r => some (.const c, r)
  | .p s :: r =>
    if s = "(" then
      match rec .expr r with
      | some (e, .p s2 :: r2) => if s2 = ")" then some (.paren e, r2) else none
      | _ => none
    else none
  | [] => none

/-- The tokens after a closing parenthesis, when the list starts with one. -/
def closeParen : List Tok → Option (List Tok)
  | .p s :: r => if s = ")" then some r else none
  | _ => none

/-- Rule: the suffix operators after an operand `e`.  The arguments of a call
are read as one expression, its commas separating the arguments. -/
def parsePostLoop (rec : ParseFn) (e : Expr) (ts : List Tok) : Option (Expr × List Tok) :=
  match ts with
  | .p s :: r =>
    if s = "->" then
      match r with
      | .id f :: r2 => rec (.postLoop (.arrow e f)) r2
      | _ => none
    else if s = "." then
      match r with
      | .id f :: r2 => rec (.postLoop (.dot e f)) r2
      | _ => none
    else if s = "[" then
      match rec .expr r with
      | some (i, .p s2 :: r2) =>
        if s2 = "]" then rec (.postLoop (.index e i)) r2 else none
      | _ => none
    else if s = "(" then
      match closeParen r with
      | some r1 => rec (.postLoop (.call0 e)) r1
      | none =>
        match rec .expr r with
        | some (a, .p s2 :: r2) =>
          if s2 = ")" then rec (.postLoop (.call e a)) r2 else none
        | _ => none
    else if s = "++" || s = "--" then rec (.postLoop (.postOp s e)) r
    else some (e, ts)
  | _ => some (e, ts)

/-- Rule: a primary expression followed by its suffix operators. -/
def parsePrimaryPostLoop (rec : ParseFn) (ts : List Tok) : Option (Expr × List Tok) :=
  match rec .primary ts with
  | some (e, r2) => rec (.postLoop e) r2
  | none => none

/-- Rule: unary operators before the operand. -/
def parseUnary (rec : ParseFn) (ts : List Tok) : Option (Expr × List Tok) :=
  match ts with
  | .p s :: r =>
    if isUnaryOp s then
      match rec .unary r with
      | some (e, r2) => some (.unary s e, r2)
      | none => none
    else parsePrimaryPostLoop rec ts
  | _ => parsePrimaryPostLoop rec ts

/-- Rule: a binary expression whose operators have precedence at least `m`. -/
def parseBinary (rec : ParseFn) (m : Nat) (ts : List Tok) : Option (Expr × List Tok) :=
  match rec .unary ts with
  | some (l, r) => rec (.binLoop l m) r
  | none => none

/-- Rule: the binary operators after a left operand `l`, left-associative. -/
def parseBinLoop (rec : ParseFn) (l : Expr) (m : Nat) (ts : List Tok) :
    Option (Expr × List Tok) :=
  match ts with
  | .p s :: r =>
    match binPrec s with
    | some pr =>
      if m ≤ pr then
        match rec (.binary (pr + 1)) r with
        | some (rhs, r2) => rec (.binLoop (.binary s l rhs) m) r2
        | none => none
      else some (l, ts)
    | none => some (l, ts)
  | _ => some (l, ts)

/-- Rule: a binary expression, alone, or followed by `? expression :` and an
assignment expression, or followed by an assignment operator and an assignment
expression. -/
def parseAssign (rec : ParseFn) (ts : List Tok) : Option (Expr × List Tok) :=
  match rec (.binary 1) ts with
  | some (l, .p s :: r) =>
    if s = "?" then
      match rec .expr r with
      | some (e1, .p s2 :: r2) =>
        if s2 = ":" then
          match rec .assign r2 with
          | some (e2, r3) => some (.cond l e1 e2, r3)
          | none => none
        else none
      | _ => none
    else if isAssignOp s then
      match rec .assign r with
      | some (rhs, r2) => some (.assign s l rhs, r2)
      | none => none
    else some (l, .p s :: r)
  | some (l, r) => some (l, r)
  | none => none

/-- Rule: assignment expressions separated by commas. -/
def parseExpr (rec : ParseFn) (ts : List Tok) : Option (Expr × List Tok) :=
  match rec .assign ts with
  | some (l, r) => rec (.exprLoop l) r
  | none => none

/-- Rule: the commas after a left operand `l`. -/
def parseExprLoop (rec : ParseFn) (l : Expr) (ts : List Tok) : Option (Expr × List Tok) :=
  match ts with
  | .p s :: r =>
    if s = "," then
      match rec .assign r with
      | some (e, r2) => rec (.exprLoop (.comma l e)) r2
      | none => none
    else some (l, ts)
  | _ => some (l, ts)

/-- One level of the grammar, with `rec` for the nested nonterminals. -/
def parseStep (rec : ParseFn) : ParseFn
  | .primary, ts => parsePrimary rec ts
  | .postLoop e, ts => parsePostLoop rec e ts
  | .unary, ts => parseUnary rec ts
  | .binary m, ts => parseBinary rec m ts
  | .binLoop l m, ts => parseBinLoop rec l m ts
  | .assign, ts => parseAssign rec ts
  | .expr, ts => parseExpr rec ts
  | .exprLoop l, ts => parseExprLoop rec l ts

/-- The reader with nesting depth at most `n`. -/
def parse : Nat → ParseFn
  | 0 => fun _ _ => none
  | n + 1 => parseStep (parse n)

/-- Every result of `f` is a result of `g`. -/
def ParseFn.le (f g : ParseFn) : Prop := ∀ m ts x, f m ts = some x → g m ts = some x

/-- A closing parenthesis after the input is left alone. -/
def ParseFn.Stable (f : ParseFn) : Prop :=
  ∀ m ts e r rest, f m ts = some (e, r) →
    f m (ts ++ .p ")" :: rest) = some (e, r ++ .p ")" :: rest)

/-- The nonterminals that are not loops read at least one token. -/
def ParseFn.Strict (f : ParseFn) : Prop :=
  f .primary [] = none ∧ f .unary [] = none ∧ (∀ m, f (.binary m) [] = none) ∧
    f .assign [] = none ∧ f .expr [] = none

/-- The tokens `ts` are read in mode `m` as `e`, up to the remaining tokens
`r`, at some nesting depth. -/
def ParsesAs (m : Mode) (ts : List Tok) (e : Expr) (r : List Tok) : Prop :=
  ∃ n, parse n m ts = some (e, r)

/-- The argument `p + 1`. -/
def argPtr : List Tok := [.id "p", .p "+", .num "1"]

/-- The argument `a + b`. -/
def argVal : List Tok := [.id "a", .p "+", .id "b"]

/-! ## Part 3: `rt_atan2d_snf` -/

/-- Modelled from the spec: the body of `rt_atan2d_snf` is not among the
sources, `TestingPins_private.h` only declares it (line 31).  The spec
describes it as the four-quadrant arctangent of `u0/u1` in radians with the
standard `atan2` semantics; `real_T` is taken as the real numbers. -/
noncomputable def rt_atan2d_snf (u0 u1 : ℝ) : ℝ :=
  if 0 < u1 then Real.arctan (u0 / u1)
  else if u1 < 0 then
    if 0 ≤ u0 then Real.arctan (u0 / u1) + Real.pi else Real.arctan (u0 / u1) - Real.pi
  else if 0 < u0 then Real.pi / 2
  else if u0 < 0 then -(Real.pi / 2)
  else 0

/-! ## Lemmas and theorems -/

/-! ### Part 1: the two headers -/

theorem include_ShowIMU_of_defined (ext : String → MacroEnv → MacroEnv) (s : PPState)
    (h : (s.env RTW_HEADER_ShowIMU_RED_private_h_).isSome) :
    includeHeader ext ShowIMU_RED_private_h s = .ok s := by
  have h1 : (s.env "RTW_HEADER_ShowIMU_RED_private_h_").isNone = false := by
    cases hv : s.env "RTW_HEADER_ShowIMU_RED_private_h_" with
    | none => simp [RTW_HEADER_ShowIMU_RED_private_h_, hv] at h
    | some d => rfl
  simp [includeHeader, ShowIMU_RED_private_h, runLines, step, active, h1]

theorem include_TestingPins_of_defined (ext : String → MacroEnv → MacroEnv) (s : PPState)
    (h : (s.env RTW_HEADER_TestingPins_private_h_).isSome) :
    includeHeader ext TestingPins_private_h s = .ok s := by
  have h1 : (s.env "RTW_HEADER_TestingPins_private_h_").isNone = false := by
    cases hv : s.env "RTW_HEADER_TestingPins_private_h_" with
    | none => simp [RTW_HEADER_TestingPins_private_h_, hv] at h
    | some d => rfl
  simp [includeHeader, TestingPins_private_h, runLines, step, active, h1]

theorem include_ShowIMU_eq (ext : String → MacroEnv → MacroEnv) (s : PPState) :
    includeHeader ext ShowIMU_RED_private_h s = .ok (afterShowIMU ext s) := by
  cases hg : s.env RTW_HEADER_ShowIMU_RED_private_h_ with
  | some d =>
    rw [include_ShowIMU_of_defined ext s (by simp [hg])]
    simp [afterShowIMU, hg]
  | none =>
    cases hr : envShowIMU ext s.env "rtmSetTFinal" with
    | none =>
      simp only [afterShowIMU, hg, hr]
      simp only [RTW_HEADER_ShowIMU_RED_private_h_] at hg
      simp only [envShowIMU, RTW_HEADER_ShowIMU_RED_private_h_] at hr
      simp [includeHeader, ShowIMU_RED_private_h, runLines, step, active, hg, hr, envShowIMU,
        RTW_HEADER_ShowIMU_RED_private_h_]
    | some d =>
      simp only [afterShowIMU, hg, hr]
      simp only [RTW_HEADER_ShowIMU_RED_private_h_] at hg
      simp only [envShowIMU, RTW_HEADER_ShowIMU_RED_private_h_] at hr
      simp [includeHeader, ShowIMU_RED_private_h, runLines, step, active, hg, hr, envShowIMU,
        RTW_HEADER_ShowIMU_RED_private_h_]

theorem include_TestingPins_eq (ext : String → MacroEnv → MacroEnv) (s : PPState) :
    includeHeader ext TestingPins_private_h s = .ok (afterTestingPins ext s) := by
  cases hg : s.env RTW_HEADER_TestingPins_private_h_ with
  | some d =>
    rw [include_TestingPins_of_defined ext s (by simp [hg])]
    simp [afterTestingPins, hg]
  | none =>
    cases hr : envTestingPins ext s.env "rtmSetTFinal" with
    | none =>
      simp only [afterTestingPins, hg, hr]
      simp only [RTW_HEADER_TestingPins_private_h_] at hg
      simp only [envTestingPins, RTW_HEADER_TestingPins_private_h_] at hr
      simp [includeHeader, TestingPins_private_h, runLines, step, active, hg, hr,
        envTestingPins, RTW_HEADER_TestingPins_private_h_]
    | some d =>
      simp only [afterTestingPins, hg, hr]
      simp only [RTW_HEADER_TestingPins_private_h_] at hg
      simp only [envTestingPins, RTW_HEADER_TestingPins_private_h_] at hr
      simp [includeHeader, TestingPins_private_h, runLines, step, active, hg, hr,
        envTestingPins, RTW_HEADER_TestingPins_private_h_]

theorem afterShowIMU_guard (ext : String → MacroEnv → MacroEnv)
    (hS : KeepsDefined ext RTW_HEADER_ShowIMU_RED_private_h_) (s : PPState) :
    ((afterShowIMU ext s).env RTW_HEADER_ShowIMU_RED_private_h_).isSome := by
  have hd : ∀ env : MacroEnv, (envShowIMU ext env RTW_HEADER_ShowIMU_RED_private_h_).isSome :=
    fun env => hS _ _ (hS _ _ (by simp [defineMacro]))
  unfold afterShowIMU
  split
  · next d hg => simp [hg]
  · split
    · exact hd _
    · have := hd s.env
      simpa [defineMacro, RTW_HEADER_ShowIMU_RED_private_h_] using this

theorem afterTestingPins_guard (ext : String → MacroEnv → MacroEnv)
    (hT : KeepsDefined ext RTW_HEADER_TestingPins_private_h_) (s : PPState) :
    ((afterTestingPins ext s).env RTW_HEADER_TestingPins_private_h_).isSome := by
  have hd : ∀ env : MacroEnv, (envTestingPins ext env RTW_HEADER_TestingPins_private_h_).isSome :=
    fun env => hT _ _ (hT _ _ (hT _ _ (by simp [defineMacro])))
  unfold afterTestingPins
  split
  · next d hg => simp [hg]
  · split
    · exact hd _
    · have := hd s.env
      simpa [defineMacro, RTW_HEADER_TestingPins_private_h_] using this

/-- Claim C2. For each of the two headers and every preprocessor state `s`: the
first inclusion succeeds and leaves the guard defined, the second inclusion
leaves the state (macro environment and output) exactly as the first left it,
so that including twice is including once; more generally an inclusion in any
state `t` in which the guard is defined changes nothing.  The headers included
from outside the sources are assumed not to undefine the guard. -/
theorem include_twice_eq_include_once (ext : String → MacroEnv → MacroEnv)
    (hS : KeepsDefined ext RTW_HEADER_ShowIMU_RED_private_h_)
    (hT : KeepsDefined ext RTW_HEADER_TestingPins_private_h_) (s : PPState) :
    (∃ s1, includeHeader ext ShowIMU_RED_private_h s = .ok s1 ∧
        (s1.env RTW_HEADER_ShowIMU_RED_private_h_).isSome ∧
        includeHeader ext ShowIMU_RED_private_h s1 = .ok s1 ∧
        (includeHeader ext ShowIMU_RED_private_h s >>= includeHeader ext ShowIMU_RED_private_h)
          = includeHeader ext ShowIMU_RED_private_h s) ∧
    (∃ s1, includeHeader ext TestingPins_private_h s = .ok s1 ∧
        (s1.env RTW_HEADER_TestingPins_private_h_).isSome ∧
        includeHeader ext TestingPins_private_h s1 = .ok s1 ∧
        (includeHeader ext TestingPins_private_h s >>= includeHeader ext TestingPins_private_h)
          = includeHeader ext TestingPins_private_h s) ∧
    (∀ t : PPState, (t.env RTW_HEADER_ShowIMU_RED_private_h_).isSome →
        includeHeader ext ShowIMU_RED_private_h t = .ok t) ∧
    (∀ t : PPState, (t.env RTW_HEADER_TestingPins_private_h_).isSome →
        includeHeader ext TestingPins_private_h t = .ok t) := by
  refine ⟨?_, ?_, fun t ht => include_ShowIMU_of_defined ext t ht,
    fun t ht => include_TestingPins_of_defined ext t ht⟩
  · have hg := afterShowIMU_guard ext hS s
    have h2 := include_ShowIMU_of_defined ext _ hg
    refine ⟨afterShowIMU ext s, include_ShowIMU_eq ext s, hg, h2, ?_⟩
    rw [include_ShowIMU_eq ext s]
    exact h2
  · have hg := afterTestingPins_guard ext hT s
    have h2 := include_TestingPins_of_defined ext _ hg
    refine ⟨afterTestingPins ext s, include_TestingPins_eq ext s, hg, h2, ?_⟩
    rw [include_TestingPins_eq ext s]
    exact h2

theorem extSample_keeps (f : String) (env : MacroEnv) (n : String) (hn : n ≠ "RTWTYPES_H") :
    extSample f env n = env n := by
  unfold extSample
  split
  · simp [defineMacro, hn]
  · rfl

theorem include_twice_eq_include_once_witness :
    KeepsDefined extSample RTW_HEADER_ShowIMU_RED_private_h_ ∧
    KeepsDefined extSample RTW_HEADER_TestingPins_private_h_ ∧
    ((∃ s1, includeHeader extSample ShowIMU_RED_private_h emptyState = .ok s1 ∧
        (s1.env RTW_HEADER_ShowIMU_RED_private_h_).isSome ∧
        includeHeader extSample ShowIMU_RED_private_h s1 = .ok s1 ∧
        (includeHeader extSample ShowIMU_RED_private_h emptyState >>=
            includeHeader extSample ShowIMU_RED_private_h)
          = includeHeader extSample ShowIMU_RED_private_h emptyState) ∧
    (∃ s1, includeHeader extSample TestingPins_private_h emptyState = .ok s1 ∧
        (s1.env RTW_HEADER_TestingPins_private_h_).isSome ∧
        includeHeader extSample TestingPins_private_h s1 = .ok s1 ∧
        (includeHeader extSample TestingPins_private_h emptyState >>=
            includeHeader extSample TestingPins_private_h)
          = includeHeader extSample TestingPins_private_h emptyState) ∧
    (∀ t : PPState, (t.env RTW_HEADER_ShowIMU_RED_private_h_).isSome →
        includeHeader extSample ShowIMU_RED_private_h t = .ok t) ∧
    (∀ t : PPState, (t.env RTW_HEADER_TestingPins_private_h_).isSome →
        includeHeader extSample TestingPins_private_h t = .ok t)) :=
  have h1 : KeepsDefined extSample RTW_HEADER_ShowIMU_RED_private_h_ :=
    fun f env h => by rw [extSample_keeps f env _ (by decide)]; exact h
  have h2 : KeepsDefined extSample RTW_HEADER_TestingPins_private_h_ :=
    fun f env h => by rw [extSample_keeps f env _ (by decide)]; exact h
  ⟨h1, h2, include_twice_eq_include_once extSample h1 h2 emptyState⟩

/-- Evaluation: what `ShowIMU_RED_private.h` contributes to an empty
translation unit. -/
theorem outOf_ShowIMU_emptyState :
    (includeHeader extSample ShowIMU_RED_private_h emptyState).toOption.map PPState.out =
      some [.defined "RTW_HEADER_ShowIMU_RED_private_h_" guardDef, .included "rtwtypes.h",
        .included "multiword_types.h", .defined "rtmSetTFinal" rtmSetTFinalDef] := by
  rfl

/-- Evaluation: what `TestingPins_private.h` contributes to an empty
translation unit. -/
theorem outOf_TestingPins_emptyState :
    (includeHeader extSample TestingPins_private_h emptyState).toOption.map PPState.out =
      some [.defined "RTW_HEADER_TestingPins_private_h_" guardDef, .included "rtwtypes.h",
        .included "builtin_typeid_types.h", .included "multiword_types.h",
        .defined "rtmSetTFinal" rtmSetTFinalDef, .declared rt_atan2d_snf_decl] := by
  rfl

/-- Evaluation: when `rtmSetTFinal` is already defined, the header does not
define it. -/
theorem outOf_TestingPins_overrideState :
    (includeHeader extSample TestingPins_private_h overrideState).toOption.map PPState.out =
      some [.defined "RTW_HEADER_TestingPins_private_h_" guardDef, .included "rtwtypes.h",
        .included "builtin_typeid_types.h", .included "multiword_types.h",
        .declared rt_atan2d_snf_decl] := by
  rfl

/-- Evaluation: both headers, one after the other, in an empty translation
unit. -/
theorem outOf_ShowIMU_then_TestingPins :
    (includeHeader extSample ShowIMU_RED_private_h emptyState >>=
      includeHeader extSample TestingPins_private_h).toOption.map PPState.out =
      some [.defined "RTW_HEADER_ShowIMU_RED_private_h_" guardDef, .included "rtwtypes.h",
        .included "multiword_types.h", .defined "rtmSetTFinal" rtmSetTFinalDef,
        .defined "RTW_HEADER_TestingPins_private_h_" guardDef, .included "rtwtypes.h",
        .included "builtin_typeid_types.h", .included "multiword_types.h",
        .declared rt_atan2d_snf_decl] := by
  rfl

theorem envShowIMU_keeps (ext : String → MacroEnv → MacroEnv)
    (hk : Keeps ext "rtmSetTFinal") (env : MacroEnv) :
    envShowIMU ext env "rtmSetTFinal" = env "rtmSetTFinal" := by
  have hext : ∀ f env, ext f env "rtmSetTFinal" = env "rtmSetTFinal" := hk
  simp [envShowIMU, hext, defineMacro, RTW_HEADER_ShowIMU_RED_private_h_]

theorem envTestingPins_keeps (ext : String → MacroEnv → MacroEnv)
    (hk : Keeps ext "rtmSetTFinal") (env : MacroEnv) :
    envTestingPins ext env "rtmSetTFinal" = env "rtmSetTFinal" := by
  have hext : ∀ f env, ext f env "rtmSetTFinal" = env "rtmSetTFinal" := hk
  simp [envTestingPins, hext, defineMacro, RTW_HEADER_TestingPins_private_h_]

/-- Claim C3. For each header, at its first inclusion (guard not yet defined),
in a state `sS` for `ShowIMU_RED_private.h` and `sT` for
`TestingPins_private.h`: the inclusion succeeds, and the definition of
`rtmSetTFinal` afterwards is the definition that the state already had,
unchanged, when there was one, and `((rtm)->Timing.tFinal = (val))` with
parameters `rtm, val` when there was none.  The headers included from outside
the sources are assumed not to touch `rtmSetTFinal`. -/
theorem rtmSetTFinal_defined_only_if_undefined (ext : String → MacroEnv → MacroEnv)
    (hext : Keeps ext "rtmSetTFinal") (sS sT : PPState)
    (hS : sS.env RTW_HEADER_ShowIMU_RED_private_h_ = none)
    (hT : sT.env RTW_HEADER_TestingPins_private_h_ = none) :
    (∃ s1, includeHeader ext ShowIMU_RED_private_h sS = .ok s1 ∧
      s1.env "rtmSetTFinal" =
        (match sS.env "rtmSetTFinal" with
         | some d => some d
         | none => some rtmSetTFinalDef)) ∧
    (∃ s1, includeHeader ext TestingPins_private_h sT = .ok s1 ∧
      s1.env "rtmSetTFinal" =
        (match sT.env "rtmSetTFinal" with
         | some d => some d
         | none => some rtmSetTFinalDef)) := by
  constructor
  · refine ⟨afterShowIMU ext sS, include_ShowIMU_eq ext sS, ?_⟩
    have hk := envShowIMU_keeps ext hext sS.env
    cases hr : sS.env "rtmSetTFinal" with
    | none =>
      rw [hr] at hk
      simp [afterShowIMU, hS, hk, defineMacro]
    | some d =>
      rw [hr] at hk
      simp [afterShowIMU, hS, hk]
  · refine ⟨afterTestingPins ext sT, include_TestingPins_eq ext sT, ?_⟩
    have hk := envTestingPins_keeps ext hext sT.env
    cases hr : sT.env "rtmSetTFinal" with
    | none =>
      rw [hr] at hk
      simp [afterTestingPins, hT, hk, defineMacro]
    | some d =>
      rw [hr] at hk
      simp [afterTestingPins, hT, hk]

theorem rtmSetTFinal_defined_only_if_undefined_witness :
    Keeps extSample "rtmSetTFinal" ∧
    overrideState.env RTW_HEADER_ShowIMU_RED_private_h_ = none ∧
    emptyState.env RTW_HEADER_TestingPins_private_h_ = none ∧
    ((∃ s1, includeHeader extSample ShowIMU_RED_private_h overrideState = .ok s1 ∧
      s1.env "rtmSetTFinal" =
        (match overrideState.env "rtmSetTFinal" with
         | some d => some d
         | none => some rtmSetTFinalDef)) ∧
    (∃ s1, includeHeader extSample TestingPins_private_h emptyState = .ok s1 ∧
      s1.env "rtmSetTFinal" =
        (match emptyState.env "rtmSetTFinal" with
         | some d => some d
         | none => some rtmSetTFinalDef))) :=
  have h1 : Keeps extSample "rtmSetTFinal" :=
    fun f env => extSample_keeps f env _ (by decide)
  have h2 : overrideState.env RTW_HEADER_ShowIMU_RED_private_h_ = none := by decide
  have h3 : emptyState.env RTW_HEADER_TestingPins_private_h_ = none := rfl
  ⟨h1, h2, h3,
    rtmSetTFinal_defined_only_if_undefined extSample h1 overrideState emptyState h2 h3⟩

/-- Claim C1, as amended. Both headers define `rtmSetTFinal(rtm, val)` by the
same line, `((rtm)->Timing.tFinal = (val))`.  For every runtime-model object
`rtm` and value `val`, the object after `rtmSetTFinal(rtm, val)` has in
`Timing.tFinal` the value `val` converted to the type of `tFinal` (which is
`val` itself when `val` has that type), and the other members of `Timing` and
the members outside `Timing` are unchanged. -/
theorem rtmSetTFinal_frame {W V τ ρ : Type} (conv : W → V) (rtm : RTModel V τ ρ)
    (val : W) (v : V) :
    Line.define "rtmSetTFinal" rtmSetTFinalDef ∈ ShowIMU_RED_private_h ∧
    Line.define "rtmSetTFinal" rtmSetTFinalDef ∈ TestingPins_private_h ∧
    (rtmSetTFinal conv rtm val).2.Timing.tFinal = conv val ∧
    (rtmSetTFinal conv rtm val).2.Timing.rest = rtm.Timing.rest ∧
    (rtmSetTFinal conv rtm val).2.rest = rtm.rest ∧
    (rtmSetTFinal id rtm v).2.Timing.tFinal = v := by
  refine ⟨?_, ?_, rfl, rfl, rfl, rfl⟩
  · simp [ShowIMU_RED_private_h]
  · simp [TestingPins_private_h]

/-- Claim C1 as stated fails: with `val` the `long long` 2^53 + 1 and
`Timing.tFinal` a `double`, the member afterwards is 2^53, not `val`. -/
theorem rtmSetTFinal_stores_converted_value :
    (rtmSetTFinal longLongToDouble sampleModel 9007199254740993).2.Timing.tFinal
      = 9007199254740992 ∧
    ¬ (rtmSetTFinal longLongToDouble sampleModel 9007199254740993).2.Timing.tFinal
      = 9007199254740993 := by
  decide

/-- Claim C6, as amended. The value of the expression `rtmSetTFinal(rtm, val)`
is the value that it stores in `Timing.tFinal`, which is `val` converted to
the type of `tFinal` (`val` itself when `val` has that type).  A second use
overwrites the first (last write wins): after `v1` then `v2` the object is the
original one with `tFinal` the converted `v2`, the same as after `v2` alone;
and using it twice with the same value is the same as using it once. -/
theorem rtmSetTFinal_last_write_wins {W V τ ρ : Type} (conv : W → V)
    (rtm : RTModel V τ ρ) (v1 v2 v : W) (u : V) :
    (rtmSetTFinal conv (rtmSetTFinal conv rtm v1).2 v2).2 = (rtmSetTFinal conv rtm v2).2 ∧
    (rtmSetTFinal conv (rtmSetTFinal conv rtm v1).2 v2).2
      = ⟨⟨conv v2, rtm.Timing.rest⟩, rtm.rest⟩ ∧
    (rtmSetTFinal conv (rtmSetTFinal conv rtm v1).2 v2).2.Timing.tFinal = conv v2 ∧
    (rtmSetTFinal conv (rtmSetTFinal conv rtm v).2 v).2 = (rtmSetTFinal conv rtm v).2 ∧
    (rtmSetTFinal conv rtm v).1 = conv v ∧
    (rtmSetTFinal conv rtm v).1 = (rtmSetTFinal conv rtm v).2.Timing.tFinal ∧
    (rtmSetTFinal conv (rtmSetTFinal conv rtm v1).2 v2).1
      = (rtmSetTFinal conv (rtmSetTFinal conv rtm v1).2 v2).2.Timing.tFinal ∧
    (rtmSetTFinal id rtm u).1 = u :=
  ⟨rfl, rfl, rfl, rfl, rfl, rfl, rfl, rfl⟩

/-- Claim C6 as stated fails: with `val` the `long long` 2^53 + 1 and
`Timing.tFinal` a `double`, the expression evaluates to 2^53, not to the `val`
argument. -/
theorem rtmSetTFinal_value_is_converted :
    (rtmSetTFinal longLongToDouble sampleModel 9007199254740993).1 = 9007199254740992 ∧
    ¬ (rtmSetTFinal longLongToDouble sampleModel 9007199254740993).1
      = 9007199254740993 := by
  decide

/-- Evaluation: last write wins on the sample model, with the conversion. -/
theorem rtmSetTFinal_twice_sample :
    (rtmSetTFinal longLongToDouble
      (rtmSetTFinal longLongToDouble sampleModel 1).2 2).2.Timing.tFinal = 2 := by
  decide

/-! #### Macro replacement -/

theorem substParams_mono {f g : List HTok → Option (List HTok)} (h : ExLe f g)
    (ps : List String) (args : List (List HTok)) :
    ∀ (body : List Tok) (r : List HTok),
      substParams f ps args body = some r → substParams g ps args body = some r := by
  intro body
  induction body with
  | nil => intro r hr; simpa [substParams] using hr
  | cons t ts ih =>
    intro r hr
    cases t with
    | id x =>
      simp only [substParams] at hr ⊢
      cases ha : argOf ps args x with
      | none =>
        simp only [ha] at hr ⊢
        cases hs : substParams f ps args ts with
        | none => simp [hs] at hr
        | some r1 =>
          rw [hs] at hr
          rw [ih r1 hs]
          exact hr
      | some a =>
        simp only [ha] at hr ⊢
        cases hf : f a with
        | none => simp [hf] at hr
        | some ea =>
          cases hs : substParams f ps args ts with
          | none => simp [hf, hs] at hr
          | some r1 =>
            rw [hf, hs] at hr
            rw [h a ea hf, ih r1 hs]
            exact hr
    | num x =>
      simp only [substParams] at hr ⊢
      cases hs : substParams f ps args ts with
      | none => simp [hs] at hr
      | some r1 =>
        rw [hs] at hr
        rw [ih r1 hs]
        exact hr
    | p x =>
      simp only [substParams] at hr ⊢
      cases hs : substParams f ps args ts with
      | none => simp [hs] at hr
      | some r1 =>
        rw [hs] at hr
        rw [ih r1 hs]
        exact hr

theorem replacement_mono {f g : List HTok → Option (List HTok)} (h : ExLe f g)
    (other : MacroDef → List (List HTok) → Option (List HTok)) (d : MacroDef)
    (args : List (List HTok)) (r : List HTok)
    (hr : replacement other f d args = some r) : replacement other g d args = some r := by
  unfold replacement at hr ⊢
  split
  · next hu => simpa [hu] using hr
  · next hu =>
    simp only [hu] at hr
    split
    · next hp => simpa [hp] using hr
    · next ps hp =>
      simp only [hp] at hr
      split
      · next ha =>
        simp only [ha, if_true] at hr
        exact substParams_mono h ps args _ _ hr
      · next ha => simp [ha] at hr

theorem map_cons_mono {f g : List HTok → Option (List HTok)} (h : ExLe f g) (t : HTok)
    (ts r : List HTok) (hr : (f ts).map (fun r => t :: r) = some r) :
    (g ts).map (fun r => t :: r) = some r := by
  cases hf : f ts with
  | none => simp [hf] at hr
  | some r1 =>
    rw [hf] at hr
    rw [h ts r1 hf]
    exact hr

theorem invoke_mono (other : MacroDef → List (List HTok) → Option (List HTok))
    {f g : List HTok → Option (List HTok)} (h : ExLe f g) (x : String) (d : MacroDef)
    (t : HTok) (ts r : List HTok) (hr : invoke other f x d t ts = some r) :
    invoke other g x d t ts = some r := by
  cases ts with
  | nil => simpa [invoke] using hr
  | cons t2 ts2 =>
    simp only [invoke] at hr ⊢
    by_cases ho : t2.tok = .p "("
    · simp only [ho, if_true] at hr ⊢
      cases hc : collectArgs 0 [] [] ts2 with
      | none => simp [hc] at hr
      | some res =>
        obtain ⟨args, hs2, ts3⟩ := res
        simp only [hc] at hr ⊢
        cases hb : replacement other f d args with
        | none => simp [hb] at hr
        | some body =>
          simp only [hb] at hr
          rw [replacement_mono h other d args body hb]
          exact h _ _ hr
    · simp only [ho, if_false] at hr ⊢
      exact map_cons_mono h _ _ _ hr

theorem expandStep_mono (env : MacroEnv)
    (other : MacroDef → List (List HTok) → Option (List HTok))
    {f g : List HTok → Option (List HTok)} (h : ExLe f g) :
    ExLe (expandStep env other f) (expandStep env other g) := by
  intro ts r hr
  cases ts with
  | nil => simpa [expandStep] using hr
  | cons t ts =>
    simp only [expandStep] at hr ⊢
    cases htr : trigger env t with
    | none =>
      simp only [htr] at hr ⊢
      exact map_cons_mono h _ _ _ hr
    | some xd =>
      obtain ⟨x, d⟩ := xd
      simp only [htr] at hr ⊢
      cases hp : d.params with
      | none =>
        simp only [hp] at hr ⊢
        cases hb : replacement other f d [] with
        | none => simp [hb] at hr
        | some body =>
          simp only [hb] at hr
          rw [replacement_mono h other d [] body hb]
          exact h _ _ hr
      | some ps =>
        simp only [hp] at hr ⊢
        exact invoke_mono other h x d t ts r hr

theorem expand_mono_succ (env : MacroEnv)
    (other : MacroDef → List (List HTok) → Option (List HTok)) (n : Nat) :
    ExLe (expand env other n) (expand env other (n + 1)) := by
  induction n with
  | zero => intro ts r hr; simp [expand] at hr
  | succ n ih => exact expandStep_mono env other ih

theorem expand_mono (env : MacroEnv)
    (other : MacroDef → List (List HTok) → Option (List HTok)) {n k : Nat} (hnk : n ≤ k) :
    ExLe (expand env other n) (expand env other k) := by
  induction hnk with
  | refl => intro ts r hr; exact hr
  | step _ ih => intro ts r hr; exact expand_mono_succ env other _ ts r (ih ts r hr)

theorem collectArgs_append (sfx : List HTok) :
    ∀ (ts : List HTok) (depth : Nat) (cur : List HTok) (done : List (List HTok))
      (args : List (List HTok)) (hs : List String) (rest : List HTok),
      collectArgs depth cur done ts = some (args, hs, rest) →
      collectArgs depth cur done (ts ++ sfx) = some (args, hs, rest ++ sfx) := by
  intro ts
  induction ts with
  | nil => intro depth cur done args hs rest h; simp [collectArgs] at h
  | cons t ts ih =>
    intro depth cur done args hs rest h
    simp only [List.cons_append, collectArgs] at h ⊢
    by_cases h1 : t.tok = .p "("
    · simp only [h1, if_true] at h ⊢
      exact ih _ _ _ _ _ _ h
    · simp only [h1, if_false] at h ⊢
      by_cases h2 : t.tok = .p ")"
      · simp only [h2, if_true] at h ⊢
        cases depth with
        | zero =>
          simp only at h ⊢
          simp only [Option.some.injEq, Prod.mk.injEq] at h
          obtain ⟨ha, hh, hr⟩ := h
          simp [ha, hh, hr]
        | succ d =>
          simp only at h ⊢
          exact ih _ _ _ _ _ _ h
      · simp only [h2, if_false] at h ⊢
        by_cases h3 : t.tok = .p "," ∧ depth = 0
        · simp only [h3, and_self, if_true] at h ⊢
          exact ih _ _ _ _ _ _ h
        · simp only [h3, if_false] at h ⊢
          exact ih _ _ _ _ _ _ h

theorem expand_append (env : MacroEnv)
    (other : MacroDef → List (List HTok) → Option (List HTok)) (c : HTok)
    (rest R2 : List HTok) (m : Nat) (hc : c.tok = .p ")")
    (h2 : expand env other m (c :: rest) = some R2) :
    ∀ (n : Nat) (ts R : List HTok), expand env other n ts = some R →
      expand env other (n + m) (ts ++ c :: rest) = some (R ++ R2) := by
  intro n
  induction n with
  | zero => intro ts R hr; simp [expand] at hr
  | succ n ih =>
    intro ts R hr
    have hle : ExLe (expand env other n) (expand env other (n + m)) :=
      expand_mono env other (Nat.le_add_right n m)
    have hsfx : expand env other (n + m) (c :: rest) = some R2 :=
      expand_mono env other (Nat.le_add_left m n) _ _ h2
    have hfuel : n + 1 + m = (n + m) + 1 := by omega
    rw [hfuel]
    simp only [expand] at hr ⊢
    cases ts with
    | nil =>
      simp only [expandStep, Option.some.injEq] at hr
      subst hr
      have := expand_mono env other (Nat.le_add_left m (n + 1)) _ _ h2
      rw [show n + 1 + m = (n + m) + 1 by omega] at this
      simpa [expand] using this
    | cons t ts =>
      simp only [List.cons_append, expandStep] at hr ⊢
      cases htr : trigger env t with
      | none =>
        simp only [htr] at hr ⊢
        cases hf : expand env other n ts with
        | none => simp [hf] at hr
        | some R1 =>
          rw [hf] at hr
          rw [ih ts R1 hf]
          simp only [Option.map_some', Option.some.injEq] at hr ⊢
          rw [← hr]
          rfl
      | some xd =>
        obtain ⟨x, d⟩ := xd
        simp only [htr] at hr ⊢
        cases hp : d.params with
        | none =>
          simp only [hp] at hr ⊢
          cases hb : replacement other (expand env other n) d [] with
          | none => simp [hb] at hr
          | some body =>
            simp only [hb] at hr
            rw [replacement_mono hle other d [] body hb]
            have := ih _ _ hr
            simpa [List.append_assoc] using this
        | some ps =>
          simp only [hp] at hr ⊢
          cases ts with
          | nil =>
            simp only [invoke, Option.some.injEq] at hr
            subst hr
            simp [invoke, hc, hsfx]
          | cons t2 ts2 =>
            simp only [List.cons_append, invoke] at hr ⊢
            by_cases ho : t2.tok = .p "("
            · simp only [ho, if_true] at hr ⊢
              cases hca : collectArgs 0 [] [] ts2 with
              | none => simp [hca] at hr
              | some res =>
                obtain ⟨args, hs2, ts3⟩ := res
                simp only [hca] at hr
                rw [collectArgs_append (c :: rest) ts2 0 [] [] args hs2 ts3 hca]
                cases hb : replacement other (expand env other n) d args with
                | none => simp [hb] at hr
                | some body =>
                  simp only [hb] at hr
                  simp only [replacement_mono hle other d args body hb]
                  have := ih _ _ hr
                  simpa [List.append_assoc] using this
            · simp only [ho, if_false] at hr ⊢
              cases hf : expand env other n (t2 :: ts2) with
              | none => simp [hf] at hr
              | some R1 =>
                rw [hf] at hr
                have := ih _ _ hf
                simp only [List.cons_append] at this
                rw [this]
                simp only [Option.map_some', Option.some.injEq] at hr ⊢
                rw [← hr]
                rfl

theorem Expands.nil (env : MacroEnv)
    (other : MacroDef → List (List HTok) → Option (List HTok)) : Expands env other [] [] :=
  ⟨1, rfl⟩

theorem Expands.skip {env : MacroEnv}
    {other : MacroDef → List (List HTok) → Option (List HTok)} {t : HTok} {ts R : List HTok}
    (ht : trigger env t = none) (h : Expands env other ts R) :
    Expands env other (t :: ts) (t :: R) := by
  obtain ⟨n, h⟩ := h
  exact ⟨n + 1, by simp [expand, expandStep, ht, h]⟩

theorem Expands.append {env : MacroEnv}
    {other : MacroDef → List (List HTok) → Option (List HTok)} {c : HTok}
    {ts R rest R2 : List HTok} (hc : c.tok = .p ")") (h1 : Expands env other ts R)
    (h2 : Expands env other (c :: rest) R2) :
    Expands env other (ts ++ c :: rest) (R ++ R2) := by
  obtain ⟨n, h1⟩ := h1
  obtain ⟨m, h2⟩ := h2
  exact ⟨n + m, expand_append env other c rest R2 m hc h2 n ts R h1⟩

theorem Expands.functional {env : MacroEnv}
    {other : MacroDef → List (List HTok) → Option (List HTok)} {ts R1 R2 : List HTok}
    (h1 : Expands env other ts R1) (h2 : Expands env other ts R2) : R1 = R2 := by
  obtain ⟨n, h1⟩ := h1
  obtain ⟨m, h2⟩ := h2
  have a1 := expand_mono env other (le_max_left n m) _ _ h1
  have a2 := expand_mono env other (le_max_right n m) _ _ h2
  rw [a1] at a2
  exact Option.some.inj a2

theorem depthAfter_append (Y : List Tok) :
    ∀ (X : List Tok) (d d1 : Nat), depthAfter d X = some d1 →
      depthAfter d (X ++ Y) = depthAfter d1 Y := by
  intro X
  induction X with
  | nil => intro d d1 h; simp [depthAfter] at h; simp [h]
  | cons t X ih =>
    intro d d1 h
    rw [List.cons_append]
    unfold depthAfter at h
    conv => lhs; unfold depthAfter
    by_cases h1 : t = .p "("
    · simp only [h1, if_true] at h ⊢
      exact ih _ _ h
    · simp only [h1, if_false] at h ⊢
      by_cases h2 : t = .p ")"
      · simp only [h2, if_true] at h ⊢
        cases d with
        | zero => simp at h
        | succ d0 => exact ih _ _ h
      · simp only [h2, if_false] at h ⊢
        exact ih _ _ h

theorem matchClose_append (Y : List Tok) :
    ∀ (X : List Tok) (d d1 : Nat) (acc : List Tok), depthAfter d X = some d1 →
      matchClose d acc (X ++ Y) = matchClose d1 (acc ++ X) Y := by
  intro X
  induction X with
  | nil => intro d d1 acc h; simp [depthAfter] at h; simp [h]
  | cons t X ih =>
    intro d d1 acc h
    rw [List.cons_append]
    unfold depthAfter at h
    conv => lhs; unfold matchClose
    by_cases h1 : t = .p "("
    · simp only [h1, if_true] at h ⊢
      have e := ih _ _ (acc ++ [.p "("]) h
      rw [List.append_assoc] at e
      exact e
    · simp only [h1, if_false] at h ⊢
      by_cases h2 : t = .p ")"
      · simp only [h2, if_true] at h ⊢
        cases d with
        | zero => simp at h
        | succ d0 =>
          simp only at h ⊢
          have e := ih _ _ (acc ++ [.p ")"]) h
          rw [List.append_assoc] at e
          exact e
      · simp only [h2, if_false] at h ⊢
        have e := ih _ _ (acc ++ [t]) h
        rw [List.append_assoc] at e
        exact e

theorem groupAt_balanced (X rest : List Tok) (h : balanced X) :
    groupAt (.p "(" :: (X ++ .p ")" :: rest)) = some (X, rest) := by
  simp only [groupAt, if_true]
  rw [matchClose_append _ X 0 0 [] h]
  simp [matchClose]

theorem Expands.pair {env : MacroEnv}
    {other : MacroDef → List (List HTok) → Option (List HTok)} {t1 t2 R1 R2 : List HTok}
    (h1 : Expands env other t1 R1) (h2 : Expands env other t2 R2) :
    ∃ n, expand env other n t1 = some R1 ∧ expand env other n t2 = some R2 := by
  obtain ⟨n, h1⟩ := h1
  obtain ⟨m, h2⟩ := h2
  exact ⟨max n m, expand_mono env other (le_max_left n m) _ _ h1,
    expand_mono env other (le_max_right n m) _ _ h2⟩

theorem Expands.rtmSetTFinal_call {env : MacroEnv}
    {other : MacroDef → List (List HTok) → Option (List HTok)}
    (henv : env "rtmSetTFinal" = some rtmSetTFinalDef)
    {ts2 a b A B ts3 R : List HTok} {hs : List String}
    (hargs : collectArgs 0 [] [] ts2 = some ([a, b], hs, ts3))
    (hA : Expands env other a A) (hB : Expands env other b B)
    (hR : Expands env other
      (hsadd ["rtmSetTFinal"] (plain [.p "(", .p "("] ++ A ++
        plain [.p ")", .p "->", .id "Timing", .p ".", .id "tFinal", .p "=", .p "("] ++ B ++
        plain [.p ")", .p ")"]) ++ ts3) R) :
    Expands env other (⟨.id "rtmSetTFinal", []⟩ :: ⟨.p "(", []⟩ :: ts2) R := by
  obtain ⟨n, hA, hB⟩ := hA.pair hB
  obtain ⟨m, hR⟩ := hR
  have hA1 := expand_mono env other (le_max_left n m) _ _ hA
  have hB1 := expand_mono env other (le_max_left n m) _ _ hB
  have hR1 := expand_mono env other (le_max_right n m) _ _ hR
  refine ⟨max n m + 1, ?_⟩
  have hrep : replacement other (expand env other (max n m)) rtmSetTFinalDef [a, b] =
      some (plain [.p "(", .p "("] ++ A ++
        plain [.p ")", .p "->", .id "Timing", .p ".", .id "tFinal", .p "=", .p "("] ++ B ++
        plain [.p ")", .p ")"]) := by
    simp [replacement, usesHashOps, rtmSetTFinalDef, arityOk, substParams, argOf, List.lookup,
      hA1, hB1, plain]
  simp only [expand, expandStep, trigger, List.not_mem_nil, if_false, henv, Option.map_some']
  simp only [rtmSetTFinalDef, invoke, if_true, hargs]
  simp only [rtmSetTFinalDef] at hrep
  rw [hrep]
  simpa using hR1

theorem map_tok_hsadd (hs : List String) (ts : List HTok) :
    (hsadd hs ts).map HTok.tok = ts.map HTok.tok := by
  simp [hsadd, Function.comp_def]

theorem map_tok_plain (ts : List Tok) : (plain ts).map HTok.tok = ts := by
  simp [plain, Function.comp_def]

theorem depthAfter_shift (k : Nat) :
    ∀ (X : List Tok) (d d1 : Nat), depthAfter d X = some d1 →
      depthAfter (d + k) X = some (d1 + k) := by
  intro X
  induction X with
  | nil => intro d d1 h; simp [depthAfter] at h; simp [depthAfter, h]
  | cons t X ih =>
    intro d d1 h
    unfold depthAfter at h
    conv => lhs; unfold depthAfter
    by_cases h1 : t = .p "("
    · simp only [h1, if_true] at h ⊢
      have := ih _ _ h
      rw [show d + k + 1 = d + 1 + k by omega]
      exact this
    · simp only [h1, if_false] at h ⊢
      by_cases h2 : t = .p ")"
      · simp only [h2, if_true] at h ⊢
        cases d with
        | zero => simp at h
        | succ d0 =>
          have := ih _ _ h
          rw [show d0 + 1 + k = (d0 + k) + 1 by omega]
          exact this
      · simp only [h2, if_false] at h ⊢
        exact ih _ _ h

theorem balanced_append {X Y : List Tok} (hX : balanced X) (hY : balanced Y) :
    balanced (X ++ Y) := by
  unfold balanced at *
  rw [depthAfter_append Y X 0 0 hX]
  exact hY

theorem balanced_paren {X : List Tok} (hX : balanced X) :
    balanced (.p "(" :: (X ++ [.p ")"])) := by
  unfold balanced at *
  have h1 : depthAfter 1 X = some 1 := by
    simpa using depthAfter_shift 1 X 0 0 hX
  have h2 : depthAfter 0 (.p "(" :: (X ++ [.p ")"])) = depthAfter 1 (X ++ [.p ")"]) := by
    conv => lhs; unfold depthAfter
    simp
  rw [h2, depthAfter_append [.p ")"] X 1 1 h1]
  simp [depthAfter]

/-! #### The expansion read as an expression -/

theorem parseStep_mono (f g : ParseFn) (h : ParseFn.le f g) :
    ParseFn.le (parseStep f) (parseStep g) := by
  have h2 : ∀ m ts, (f m ts).isSome → g m ts = f m ts := by
    intro m ts hs
    cases hv : f m ts with
    | none => simp [hv] at hs
    | some x => exact h m ts x hv
  intro m ts x hx
  cases m <;>
    simp only [parseStep, parsePrimary, parsePostLoop, parseUnary, parsePrimaryPostLoop,
      parseBinary, parseBinLoop, parseAssign, parseExpr, parseExprLoop] at hx ⊢ <;>
    (repeat' split at hx) <;> simp_all <;> subst hx <;> simp_all

theorem parse_mono_succ (n : Nat) : ParseFn.le (parse n) (parse (n + 1)) := by
  induction n with
  | zero => intro m ts x hx; simp [parse] at hx
  | succ n ih => exact parseStep_mono _ _ ih

theorem parse_mono {n k : Nat} (hnk : n ≤ k) : ParseFn.le (parse n) (parse k) := by
  induction hnk with
  | refl => intro m ts x hx; exact hx
  | step _ ih => intro m ts x hx; exact parse_mono_succ _ m ts x (ih m ts x hx)

theorem parsePrimary_stable (f : ParseFn) (h : ParseFn.Stable f) (ts : List Tok) (e : Expr)
    (r rest : List Tok) (hx : parsePrimary f ts = some (e, r)) :
    parsePrimary f (ts ++ .p ")" :: rest) = some (e, r ++ .p ")" :: rest) := by
  unfold parsePrimary at hx
  split at hx
  · simp_all [parsePrimary]
  · simp_all [parsePrimary]
  · split at hx
    · split at hx
      · next s r0 hs x0 e0 s2 r2 heq =>
        split at hx
        · simp [parsePrimary, hs, h _ _ _ _ rest heq]
          simp_all
        · simp at hx
      · simp at hx
    · simp at hx
  · simp at hx

theorem closeParen_append {r r1 : List Tok} (rest : List Tok) (h : closeParen r = some r1) :
    closeParen (r ++ .p ")" :: rest) = some (r1 ++ .p ")" :: rest) := by
  unfold closeParen at h
  split at h
  · next s r0 =>
    split at h
    · next hs =>
      simp at h
      simp [closeParen, hs, h]
    · simp at h
  · simp at h

theorem closeParen_append_none {r : List Tok} (rest : List Tok) (h : closeParen r = none)
    (hne : r ≠ []) : closeParen (r ++ .p ")" :: rest) = none := by
  cases r with
  | nil => exact absurd rfl hne
  | cons t r0 =>
    cases t with
    | id x => simp [closeParen]
    | num x => simp [closeParen]
    | p s =>
      simp only [closeParen] at h
      split at h
      · simp at h
      · next hs => simp [closeParen, hs]

theorem parsePostLoop_stable (f : ParseFn) (h : ParseFn.Stable f) (hst : ParseFn.Strict f)
    (e0 : Expr) (ts : List Tok) (e : Expr) (r rest : List Tok)
    (hx : parsePostLoop f e0 ts = some (e, r)) :
    parsePostLoop f e0 (ts ++ .p ")" :: rest) = some (e, r ++ .p ")" :: rest) := by
  unfold parsePostLoop at hx
  split at hx
  · next s r0 =>
    split at hx
    · next hs =>
      split at hx
      · simp [parsePostLoop, hs, h _ _ _ _ rest hx]
      · simp at hx
    · next hs =>
      split at hx
      · next hs2 =>
        split at hx
        · simp [parsePostLoop, hs, hs2, h _ _ _ _ rest hx]
        · simp at hx
      · next hs2 =>
        split at hx
        · next hs3 =>
          split at hx
          · next heq =>
            split at hx
            · next hs4 =>
              simp [parsePostLoop, hs, hs2, hs3, hs4, h _ _ _ _ rest heq, h _ _ _ _ rest hx]
            · simp at hx
          · simp at hx
        · next hs3 =>
          split at hx
          · next hs4 =>
            split at hx
            · next r1 hc =>
              simp [parsePostLoop, hs, hs2, hs3, hs4, closeParen_append rest hc,
                h _ _ _ _ rest hx]
            · next hc =>
              split at hx
              · next a s2 r2 heq =>
                split at hx
                · next hs5 =>
                  have hne : r0 ≠ [] := by
                    rintro rfl
                    rw [hst.2.2.2.2] at heq
                    cases heq
                  simp [parsePostLoop, hs, hs2, hs3, hs4, closeParen_append_none rest hc hne,
                    h _ _ _ _ rest heq, hs5, h _ _ _ _ rest hx]
                · simp at hx
              · simp at hx
          · next hs4 =>
            split at hx
            · next hs5 =>
              simp [parsePostLoop, hs, hs2, hs3, hs4, hs5, h _ _ _ _ rest hx]
            · next hs5 =>
              simp at hx
              simp [parsePostLoop, hs, hs2, hs3, hs4, hs5, hx.1.symm, hx.2.symm]
  · next hn =>
    simp at hx
    cases ts with
    | nil => simp [parsePostLoop, closeParen, hx.1.symm, hx.2.symm]
    | cons t ts0 =>
      cases t with
      | p s => exact absurd rfl (hn s ts0)
      | id s => simp [parsePostLoop, hx.1.symm, hx.2.symm]
      | num s => simp [parsePostLoop, hx.1.symm, hx.2.symm]

theorem parsePrimaryPostLoop_stable (f : ParseFn) (h : ParseFn.Stable f) (ts : List Tok)
    (e : Expr) (r rest : List Tok) (hx : parsePrimaryPostLoop f ts = some (e, r)) :
    parsePrimaryPostLoop f (ts ++ .p ")" :: rest) = some (e, r ++ .p ")" :: rest) := by
  unfold parsePrimaryPostLoop at hx ⊢
  split at hx
  · next e1 r1 heq => simp [h _ _ _ _ rest heq, h _ _ _ _ rest hx]
  · simp at hx

theorem parseUnary_stable (f : ParseFn) (h : ParseFn.Stable f) (ts : List Tok) (e : Expr)
    (r rest : List Tok) (hx : parseUnary f ts = some (e, r)) :
    parseUnary f (ts ++ .p ")" :: rest) = some (e, r ++ .p ")" :: rest) := by
  unfold parseUnary at hx
  split at hx
  · next s r0 =>
    split at hx
    · next hs =>
      split at hx
      · next e1 r1 heq =>
        simp at hx
        simp [parseUnary, hs, h _ _ _ _ rest heq, hx.1.symm, hx.2.symm]
      · simp at hx
    · next hs =>
      have := parsePrimaryPostLoop_stable f h _ _ _ rest hx
      simpa [parseUnary, hs] using this
  · next hn =>
    have := parsePrimaryPostLoop_stable f h _ _ _ rest hx
    cases ts with
    | nil => simpa [parseUnary, isUnaryOp] using this
    | cons t ts0 =>
      cases t with
      | p s => exact absurd rfl (hn s ts0)
      | id s => simpa [parseUnary] using this
      | num s => simpa [parseUnary] using this

theorem parseBinary_stable (f : ParseFn) (h : ParseFn.Stable f) (m : Nat) (ts : List Tok)
    (e : Expr) (r rest : List Tok) (hx : parseBinary f m ts = some (e, r)) :
    parseBinary f m (ts ++ .p ")" :: rest) = some (e, r ++ .p ")" :: rest) := by
  unfold parseBinary at hx ⊢
  split at hx
  · next e1 r1 heq => simp [h _ _ _ _ rest heq, h _ _ _ _ rest hx]
  · simp at hx

theorem parseBinLoop_stable (f : ParseFn) (h : ParseFn.Stable f) (l : Expr) (m : Nat)
    (ts : List Tok) (e : Expr) (r rest : List Tok) (hx : parseBinLoop f l m ts = some (e, r)) :
    parseBinLoop f l m (ts ++ .p ")" :: rest) = some (e, r ++ .p ")" :: rest) := by
  unfold parseBinLoop at hx
  split at hx
  · next s r0 =>
    split at hx
    · next pr hpr =>
      split at hx
      · next hm =>
        split at hx
        · next rhs r2 heq =>
          simp [parseBinLoop, hpr, hm, h _ _ _ _ rest heq, h _ _ _ _ rest hx]
        · simp at hx
      · next hm =>
        simp at hx
        simp [parseBinLoop, hpr, hm, hx.1.symm, hx.2.symm]
    · next hpr =>
      simp at hx
      simp [parseBinLoop, hpr, hx.1.symm, hx.2.symm]
  · next hn =>
    simp at hx
    cases ts with
    | nil => simp [parseBinLoop, binPrec, hx.1.symm, hx.2.symm]
    | cons t ts0 =>
      cases t with
      | p s => exact absurd rfl (hn s ts0)
      | id s => simp [parseBinLoop, hx.1.symm, hx.2.symm]
      | num s => simp [parseBinLoop, hx.1.symm, hx.2.symm]

theorem parseAssign_stable (f : ParseFn) (h : ParseFn.Stable f) (ts : List Tok) (e : Expr)
    (r rest : List Tok) (hx : parseAssign f ts = some (e, r)) :
    parseAssign f (ts ++ .p ")" :: rest) = some (e, r ++ .p ")" :: rest) := by
  unfold parseAssign at hx
  split at hx
  · next l s r0 heq =>
    split at hx
    · next hq =>
      split at hx
      · next e1 s2 r2 heq1 =>
        split at hx
        · next hs2 =>
          split at hx
          · next e2 r3 heq2 =>
            simp at hx
            simp [parseAssign, hq, hs2, h _ _ _ _ rest heq, h _ _ _ _ rest heq1,
              h _ _ _ _ rest heq2, hx.1.symm, hx.2.symm]
          · simp at hx
        · simp at hx
      · simp at hx
    · next hq =>
      split at hx
      · next hs =>
        split at hx
        · next rhs r2 heq2 =>
          simp at hx
          simp [parseAssign, hq, hs, h _ _ _ _ rest heq, h _ _ _ _ rest heq2, hx.1.symm,
            hx.2.symm]
        · simp at hx
      · next hs =>
        simp at hx
        simp [parseAssign, hq, hs, h _ _ _ _ rest heq, hx.1.symm, hx.2.symm]
  · next l r0 hn heq =>
    simp at hx
    have h1 := h _ _ _ _ rest heq
    cases r0 with
    | nil => simp [parseAssign, h1, isAssignOp, hx.1.symm, hx.2.symm]
    | cons t ts0 =>
      cases t with
      | p s => exact absurd rfl (hn s ts0)
      | id s => simp [parseAssign, h1, hx.1.symm, hx.2.symm]
      | num s => simp [parseAssign, h1, hx.1.symm, hx.2.symm]
  · simp at hx

theorem parseExpr_stable (f : ParseFn) (h : ParseFn.Stable f) (ts : List Tok)
    (e : Expr) (r rest : List Tok) (hx : parseExpr f ts = some (e, r)) :
    parseExpr f (ts ++ .p ")" :: rest) = some (e, r ++ .p ")" :: rest) := by
  unfold parseExpr at hx ⊢
  split at hx
  · next e1 r1 heq => simp [h _ _ _ _ rest heq, h _ _ _ _ rest hx]
  · simp at hx

theorem parseExprLoop_stable (f : ParseFn) (h : ParseFn.Stable f) (l : Expr)
    (ts : List Tok) (e : Expr) (r rest : List Tok) (hx : parseExprLoop f l ts = some (e, r)) :
    parseExprLoop f l (ts ++ .p ")" :: rest) = some (e, r ++ .p ")" :: rest) := by
  unfold parseExprLoop at hx
  split at hx
  · next s r0 =>
    split at hx
    · next hs =>
      split at hx
      · next e1 r2 heq =>
        simp [parseExprLoop, hs, h _ _ _ _ rest heq, h _ _ _ _ rest hx]
      · simp at hx
    · next hs =>
      simp at hx
      simp [parseExprLoop, hs, hx.1.symm, hx.2.symm]
  · next hn =>
    simp at hx
    cases ts with
    | nil => simp [parseExprLoop, hx.1.symm, hx.2.symm]
    | cons t ts0 =>
      cases t with
      | p s => exact absurd rfl (hn s ts0)
      | id s => simp [parseExprLoop, hx.1.symm, hx.2.symm]
      | num s => simp [parseExprLoop, hx.1.symm, hx.2.symm]

theorem parseStep_stable (f : ParseFn) (h : ParseFn.Stable f) (hst : ParseFn.Strict f) :
    ParseFn.Stable (parseStep f) := by
  intro m ts e r rest hx
  cases m with
  | primary => exact parsePrimary_stable f h ts e r rest hx
  | postLoop e0 => exact parsePostLoop_stable f h hst e0 ts e r rest hx
  | unary => exact parseUnary_stable f h ts e r rest hx
  | binary m => exact parseBinary_stable f h m ts e r rest hx
  | binLoop l m => exact parseBinLoop_stable f h l m ts e r rest hx
  | assign => exact parseAssign_stable f h ts e r rest hx
  | expr => exact parseExpr_stable f h ts e r rest hx
  | exprLoop l => exact parseExprLoop_stable f h l ts e r rest hx

theorem parseStep_strict (f : ParseFn) (hst : ParseFn.Strict f) :
    ParseFn.Strict (parseStep f) := by
  obtain ⟨h1, h2, h3, h4, h5⟩ := hst
  refine ⟨?_, ?_, ?_, ?_, ?_⟩
  · simp [parseStep, parsePrimary]
  · simp [parseStep, parseUnary, parsePrimaryPostLoop, h1]
  · intro m
    simp [parseStep, parseBinary, h2]
  · simp [parseStep, parseAssign, h3]
  · simp [parseStep, parseExpr, h4]

theorem parse_strict (n : Nat) : ParseFn.Strict (parse n) := by
  induction n with
  | zero => simp [ParseFn.Strict, parse]
  | succ n ih => exact parseStep_strict _ ih

theorem parse_stable (n : Nat) : ParseFn.Stable (parse n) := by
  induction n with
  | zero => intro m ts e r rest hx; simp [parse] at hx
  | succ n ih => exact parseStep_stable _ ih (parse_strict n)

theorem ParsesAs.both {m1 m2 : Mode} {t1 t2 r1 r2 : List Tok} {e1 e2 : Expr}
    (h1 : ParsesAs m1 t1 e1 r1) (h2 : ParsesAs m2 t2 e2 r2) :
    ∃ n, parse n m1 t1 = some (e1, r1) ∧ parse n m2 t2 = some (e2, r2) := by
  obtain ⟨n1, h1⟩ := h1
  obtain ⟨n2, h2⟩ := h2
  exact ⟨max n1 n2, parse_mono (le_max_left _ _) _ _ _ h1,
    parse_mono (le_max_right _ _) _ _ _ h2⟩

theorem ParsesAs.close {m : Mode} {ts r : List Tok} {e : Expr} (h : ParsesAs m ts e r)
    (rest : List Tok) : ParsesAs m (ts ++ .p ")" :: rest) e (r ++ .p ")" :: rest) := by
  obtain ⟨n, h⟩ := h
  exact ⟨n, parse_stable n m ts e r rest h⟩

theorem ParsesAs.primary_paren {ts r : List Tok} {e : Expr}
    (h : ParsesAs .expr ts e (.p ")" :: r)) : ParsesAs .primary (.p "(" :: ts) (.paren e) r := by
  obtain ⟨n, h⟩ := h
  exact ⟨n + 1, by simp [parse, parseStep, parsePrimary, h]⟩

theorem ParsesAs.unary_paren {ts r1 r : List Tok} {e1 e : Expr}
    (h1 : ParsesAs .primary (.p "(" :: ts) e1 r1) (h2 : ParsesAs (.postLoop e1) r1 e r) :
    ParsesAs .unary (.p "(" :: ts) e r := by
  obtain ⟨n, h1, h2⟩ := h1.both h2
  exact ⟨n + 1, by simp [parse, parseStep, parseUnary, parsePrimaryPostLoop, isUnaryOp, h1, h2]⟩

theorem ParsesAs.binary {m : Nat} {ts r1 r : List Tok} {e1 e : Expr}
    (h1 : ParsesAs .unary ts e1 r1) (h2 : ParsesAs (.binLoop e1 m) r1 e r) :
    ParsesAs (.binary m) ts e r := by
  obtain ⟨n, h1, h2⟩ := h1.both h2
  exact ⟨n + 1, by simp [parse, parseStep, parseBinary, h1, h2]⟩

theorem ParsesAs.assign_eq {ts r1 r : List Tok} {l rhs : Expr}
    (h1 : ParsesAs (.binary 1) ts l (.p "=" :: r1)) (h2 : ParsesAs .assign r1 rhs r) :
    ParsesAs .assign ts (.assign "=" l rhs) r := by
  obtain ⟨n, h1, h2⟩ := h1.both h2
  exact ⟨n + 1, by simp [parse, parseStep, parseAssign, isAssignOp, h1, h2]⟩

theorem ParsesAs.assign_close {ts r : List Tok} {l : Expr}
    (h1 : ParsesAs (.binary 1) ts l (.p ")" :: r)) : ParsesAs .assign ts l (.p ")" :: r) := by
  obtain ⟨n, h1⟩ := h1
  exact ⟨n + 1, by simp [parse, parseStep, parseAssign, isAssignOp, h1]⟩

theorem ParsesAs.assign_end {ts : List Tok} {l : Expr}
    (h1 : ParsesAs (.binary 1) ts l []) : ParsesAs .assign ts l [] := by
  obtain ⟨n, h1⟩ := h1
  exact ⟨n + 1, by simp [parse, parseStep, parseAssign, h1]⟩

theorem ParsesAs.expr {ts r1 r : List Tok} {l e : Expr}
    (h1 : ParsesAs .assign ts l r1) (h2 : ParsesAs (.exprLoop l) r1 e r) :
    ParsesAs .expr ts e r := by
  obtain ⟨n, h1, h2⟩ := h1.both h2
  exact ⟨n + 1, by simp [parse, parseStep, parseExpr, h1, h2]⟩

theorem ParsesAs.postLoop_member (e : Expr) (r : List Tok) :
    ParsesAs (.postLoop e) (.p "->" :: .id "Timing" :: .p "." :: .id "tFinal" :: .p "=" :: r)
      (.dot (.arrow e "Timing") "tFinal") (.p "=" :: r) :=
  ⟨3, by simp [parse, parseStep, parsePostLoop]⟩

theorem ParsesAs.postLoop_close (e : Expr) (r : List Tok) :
    ParsesAs (.postLoop e) (.p ")" :: r) e (.p ")" :: r) :=
  ⟨1, by simp [parse, parseStep, parsePostLoop]⟩

theorem ParsesAs.postLoop_end (e : Expr) : ParsesAs (.postLoop e) [] e [] :=
  ⟨1, by simp [parse, parseStep, parsePostLoop]⟩

theorem ParsesAs.binLoop_eq (e : Expr) (m : Nat) (r : List Tok) :
    ParsesAs (.binLoop e m) (.p "=" :: r) e (.p "=" :: r) :=
  ⟨1, by simp [parse, parseStep, parseBinLoop, binPrec]⟩

theorem ParsesAs.binLoop_close (e : Expr) (m : Nat) (r : List Tok) :
    ParsesAs (.binLoop e m) (.p ")" :: r) e (.p ")" :: r) :=
  ⟨1, by simp [parse, parseStep, parseBinLoop, binPrec]⟩

theorem ParsesAs.binLoop_end (e : Expr) (m : Nat) : ParsesAs (.binLoop e m) [] e [] :=
  ⟨1, by simp [parse, parseStep, parseBinLoop]⟩

theorem ParsesAs.exprLoop_close (e : Expr) (r : List Tok) :
    ParsesAs (.exprLoop e) (.p ")" :: r) e (.p ")" :: r) :=
  ⟨1, by simp [parse, parseStep, parseExprLoop]⟩

theorem ParsesAs.exprLoop_end (e : Expr) : ParsesAs (.exprLoop e) [] e [] :=
  ⟨1, by simp [parse, parseStep, parseExprLoop]⟩

theorem parse_expansion (a b : List Tok) (ea eb : Expr)
    (ha : ParsesAs .expr a ea []) (hb : ParsesAs .expr b eb []) :
    ParsesAs .expr
      ([.p "(", .p "("] ++ a ++
        [.p ")", .p "->", .id "Timing", .p ".", .id "tFinal", .p "=", .p "("] ++ b ++
        [.p ")", .p ")"])
      (.paren (.assign "=" (.dot (.arrow (.paren ea) "Timing") "tFinal") (.paren eb))) [] := by
  -- the right operand `( b )`
  have b1 := hb.close [.p ")"]
  have b2 := ParsesAs.primary_paren b1
  have b3 := ParsesAs.unary_paren b2 (ParsesAs.postLoop_close _ _)
  have b4 := ParsesAs.binary (m := 1) b3 (ParsesAs.binLoop_close _ _ _)
  have b5 := ParsesAs.assign_close b4
  -- the left operand `( a ) -> Timing . tFinal`
  have a1 := ha.close
    (.p "->" :: .id "Timing" :: .p "." :: .id "tFinal" :: .p "=" :: .p "(" ::
      (b ++ [.p ")", .p ")"]))
  have a2 := ParsesAs.primary_paren a1
  have a3 := ParsesAs.unary_paren a2 (ParsesAs.postLoop_member _ _)
  have a4 := ParsesAs.binary (m := 1) a3 (ParsesAs.binLoop_eq _ _ _)
  -- the assignment and the outer parentheses
  have c1 := ParsesAs.assign_eq a4 (by simpa using b5)
  have c2 := ParsesAs.expr c1 (ParsesAs.exprLoop_close _ _)
  have c3 := ParsesAs.primary_paren c2
  have c4 := ParsesAs.unary_paren c3 (ParsesAs.postLoop_end _)
  have c5 := ParsesAs.binary (m := 1) c4 (ParsesAs.binLoop_end _ _)
  have c6 := ParsesAs.expr (ParsesAs.assign_end c5) (ParsesAs.exprLoop_end _)
  simpa using c6

theorem ParsesAs.unique {m : Mode} {ts r1 r2 : List Tok} {e1 e2 : Expr}
    (h1 : ParsesAs m ts e1 r1) (h2 : ParsesAs m ts e2 r2) : e1 = e2 ∧ r1 = r2 := by
  obtain ⟨n, h1, h2⟩ := h1.both h2
  rw [h1] at h2
  simpa using h2

/-- Evaluation: the expansion for the arguments `p + 1` and `a + b`, read as an
expression. -/
theorem parse_expansion_sample :
    ParsesAs .expr
      ([.p "(", .p "("] ++ argPtr ++
        [.p ")", .p "->", .id "Timing", .p ".", .id "tFinal", .p "=", .p "("] ++ argVal ++
        [.p ")", .p ")"])
      (.paren (.assign "=" (.dot (.arrow (.paren (.binary "+" (.var "p") (.const "1")))
        "Timing") "tFinal") (.paren (.binary "+" (.var "a") (.var "b"))))) [] :=
  parse_expansion argPtr argVal _ _ ⟨8, by decide⟩ ⟨8, by decide⟩

/-! #### The replacement of an invocation of `rtmSetTFinal` -/

/-- Claim C7. An invocation `rtmSetTFinal(a, b)` in the source, with the
arguments `a` and `b` and followed by any tokens `rest`, is replaced by
`( ( A1 ) -> Timing . tFinal = ( B1 ) )`, where `A1` and `B1` are the complete
macro replacements of the two arguments (`A`, `B` before the substitution,
`A1`, `B1` after the rescan): each argument occurs exactly once, between its
own pair of parentheses, and the tokens that follow are replaced on their own.
When the parentheses of `A1` and of `B1` are balanced, as they are in every
expression, the parenthesis after `A1` is the one that matches the parenthesis
before it, whatever operators `A1` holds: the group that `->` applies to has
the whole of `A1` as its content, and the group after `=` has the whole of
`B1` as its content; and when `A1` and `B1` are expressions `ea` and `eb` of the
grammar fragment above, the replacement has exactly one reading, the
assignment of `(eb)` to the member `Timing.tFinal` of what `(ea)` points to.
The hypotheses say that the invocation preprocesses; the names `Timing` and
`tFinal` are assumed not to be defined as macros. -/
theorem rtmSetTFinal_expansion_hygienic (env : MacroEnv)
    (other : MacroDef → List (List HTok) → Option (List HTok))
    (a b : List Tok) (A A1 B B1 rest R1 : List HTok)
    (henv : env "rtmSetTFinal" = some rtmSetTFinalDef)
    (hTiming : env "Timing" = none) (htFinal : env "tFinal" = none)
    (hargs : collectArgs 0 [] [] (plain (a ++ [.p ","] ++ b ++ [.p ")"])) =
      some ([plain a, plain b], [], []))
    (hA : Expands env other (plain a) A)
    (hA1 : Expands env other (hsadd ["rtmSetTFinal"] A) A1)
    (hB : Expands env other (plain b) B)
    (hB1 : Expands env other (hsadd ["rtmSetTFinal"] B) B1)
    (hrest : Expands env other rest R1) :
    ∃ R, Expands env other
        (plain ([.id "rtmSetTFinal", .p "("] ++ a ++ [.p ","] ++ b ++ [.p ")"]) ++ rest)
        (R ++ R1) ∧
      (∀ R2, Expands env other
        (plain ([.id "rtmSetTFinal", .p "("] ++ a ++ [.p ","] ++ b ++ [.p ")"]) ++ rest) R2 →
        R2 = R ++ R1) ∧
      R.map HTok.tok = [.p "(", .p "("] ++ A1.map HTok.tok ++
        [.p ")", .p "->", .id "Timing", .p ".", .id "tFinal", .p "=", .p "("] ++
        B1.map HTok.tok ++ [.p ")", .p ")"] ∧
      (balanced (A1.map HTok.tok) → balanced (B1.map HTok.tok) →
        groupAt (R.map HTok.tok) = some ([.p "("] ++ A1.map HTok.tok ++
          [.p ")", .p "->", .id "Timing", .p ".", .id "tFinal", .p "=", .p "("] ++
          B1.map HTok.tok ++ [.p ")"], []) ∧
        groupAt ([.p "("] ++ A1.map HTok.tok ++
          [.p ")", .p "->", .id "Timing", .p ".", .id "tFinal", .p "=", .p "("] ++
          B1.map HTok.tok ++ [.p ")"]) = some (A1.map HTok.tok,
            [.p "->", .id "Timing", .p ".", .id "tFinal", .p "=", .p "("] ++
            B1.map HTok.tok ++ [.p ")"]) ∧
        groupAt ([.p "("] ++ B1.map HTok.tok ++ [.p ")"]) = some (B1.map HTok.tok, [])) ∧
      (∀ ea eb, ParsesAs .expr (A1.map HTok.tok) ea [] →
        ParsesAs .expr (B1.map HTok.tok) eb [] →
        ParsesAs .expr (R.map HTok.tok)
          (.paren (.assign "=" (.dot (.arrow (.paren ea) "Timing") "tFinal") (.paren eb)))
          [] ∧
        ∀ e r, ParsesAs .expr (R.map HTok.tok) e r →
          e = .paren (.assign "=" (.dot (.arrow (.paren ea) "Timing") "tFinal") (.paren eb)) ∧
          r = []) := by
  -- the rescan of the replacement, from its end
  have e1 : Expands env other
      (⟨.p ")", ["rtmSetTFinal"]⟩ :: ⟨.p ")", ["rtmSetTFinal"]⟩ :: rest)
      (⟨.p ")", ["rtmSetTFinal"]⟩ :: ⟨.p ")", ["rtmSetTFinal"]⟩ :: R1) :=
    Expands.skip rfl (Expands.skip rfl hrest)
  have e2 := Expands.append rfl hB1 e1
  have e3 : Expands env other
      (⟨.p ")", ["rtmSetTFinal"]⟩ :: ⟨.p "->", ["rtmSetTFinal"]⟩ ::
        ⟨.id "Timing", ["rtmSetTFinal"]⟩ :: ⟨.p ".", ["rtmSetTFinal"]⟩ ::
        ⟨.id "tFinal", ["rtmSetTFinal"]⟩ :: ⟨.p "=", ["rtmSetTFinal"]⟩ ::
        ⟨.p "(", ["rtmSetTFinal"]⟩ :: (hsadd ["rtmSetTFinal"] B ++
          ⟨.p ")", ["rtmSetTFinal"]⟩ :: ⟨.p ")", ["rtmSetTFinal"]⟩ :: rest)) _ :=
    Expands.skip rfl (Expands.skip rfl (Expands.skip (by simp [trigger, hTiming])
      (Expands.skip rfl (Expands.skip (by simp [trigger, htFinal])
        (Expands.skip rfl (Expands.skip rfl e2))))))
  have e4 := Expands.append rfl hA1 e3
  have e5 : Expands env other
      (⟨.p "(", ["rtmSetTFinal"]⟩ :: ⟨.p "(", ["rtmSetTFinal"]⟩ ::
        (hsadd ["rtmSetTFinal"] A ++ _))
      _ := Expands.skip rfl (Expands.skip rfl e4)
  -- the invocation
  have hargs2 := collectArgs_append rest _ 0 [] [] _ _ _ hargs
  have e6 := Expands.rtmSetTFinal_call henv hargs2 hA hB
    (R := ⟨.p "(", ["rtmSetTFinal"]⟩ :: ⟨.p "(", ["rtmSetTFinal"]⟩ :: (A1 ++
      ⟨.p ")", ["rtmSetTFinal"]⟩ :: ⟨.p "->", ["rtmSetTFinal"]⟩ ::
      ⟨.id "Timing", ["rtmSetTFinal"]⟩ :: ⟨.p ".", ["rtmSetTFinal"]⟩ ::
      ⟨.id "tFinal", ["rtmSetTFinal"]⟩ :: ⟨.p "=", ["rtmSetTFinal"]⟩ ::
      ⟨.p "(", ["rtmSetTFinal"]⟩ :: (B1 ++
      ⟨.p ")", ["rtmSetTFinal"]⟩ :: ⟨.p ")", ["rtmSetTFinal"]⟩ :: R1)))
    (by simpa [hsadd, plain] using e5)
  have e7 : Expands env other
      (plain ([.id "rtmSetTFinal", .p "("] ++ a ++ [.p ","] ++ b ++ [.p ")"]) ++ rest)
      ((⟨.p "(", ["rtmSetTFinal"]⟩ :: ⟨.p "(", ["rtmSetTFinal"]⟩ :: (A1 ++
        ⟨.p ")", ["rtmSetTFinal"]⟩ :: ⟨.p "->", ["rtmSetTFinal"]⟩ ::
        ⟨.id "Timing", ["rtmSetTFinal"]⟩ :: ⟨.p ".", ["rtmSetTFinal"]⟩ ::
        ⟨.id "tFinal", ["rtmSetTFinal"]⟩ :: ⟨.p "=", ["rtmSetTFinal"]⟩ ::
        ⟨.p "(", ["rtmSetTFinal"]⟩ :: (B1 ++
        [⟨.p ")", ["rtmSetTFinal"]⟩, ⟨.p ")", ["rtmSetTFinal"]⟩]))) ++ R1) := by
    simpa [plain] using e6
  have htok : List.map HTok.tok
      (⟨.p "(", ["rtmSetTFinal"]⟩ :: ⟨.p "(", ["rtmSetTFinal"]⟩ :: (A1 ++
        ⟨.p ")", ["rtmSetTFinal"]⟩ :: ⟨.p "->", ["rtmSetTFinal"]⟩ ::
        ⟨.id "Timing", ["rtmSetTFinal"]⟩ :: ⟨.p ".", ["rtmSetTFinal"]⟩ ::
        ⟨.id "tFinal", ["rtmSetTFinal"]⟩ :: ⟨.p "=", ["rtmSetTFinal"]⟩ ::
        ⟨.p "(", ["rtmSetTFinal"]⟩ :: (B1 ++
        [⟨.p ")", ["rtmSetTFinal"]⟩, ⟨.p ")", ["rtmSetTFinal"]⟩]))) =
      [.p "(", .p "("] ++ A1.map HTok.tok ++
        [.p ")", .p "->", .id "Timing", .p ".", .id "tFinal", .p "=", .p "("] ++
        B1.map HTok.tok ++ [.p ")", .p ")"] := by
    simp
  refine ⟨_, e7, fun R2 h2 => Expands.functional h2 e7, htok, fun hbA hbB => ⟨?_, ?_, ?_⟩,
    fun ea eb hea heb => ?_⟩
  rotate_left 3
  · rw [htok]
    have hp := parse_expansion _ _ ea eb hea heb
    exact ⟨hp, fun e r h => ParsesAs.unique h hp⟩
  · have hmid : balanced [.p "->", .id "Timing", .p ".", .id "tFinal", .p "="] := by
      simp [balanced, depthAfter]
    have hb := balanced_append (balanced_append (balanced_paren hbA) hmid) (balanced_paren hbB)
    have := groupAt_balanced _ [] hb
    simpa using this
  · have := groupAt_balanced (A1.map HTok.tok)
      ([.p "->", .id "Timing", .p ".", .id "tFinal", .p "=", .p "("] ++
          B1.map HTok.tok ++ [.p ")"]) hbA
    simpa using this
  · have := groupAt_balanced (B1.map HTok.tok) [] hbB
    simpa using this

theorem rtmSetTFinal_expansion_hygienic_witness :
    envArgs "rtmSetTFinal" = some rtmSetTFinalDef ∧
    envArgs "Timing" = none ∧ envArgs "tFinal" = none ∧
    collectArgs 0 [] [] (plain ([.id "RTM"] ++ [.p ","] ++ [.id "TF"] ++ [.p ")"])) =
      some ([plain [.id "RTM"], plain [.id "TF"]], [], []) ∧
    Expands envArgs noOther (plain [.id "RTM"])
      (hsadd ["RTM"] (plain [.p "(", .p "&", .id "model", .p ")"])) ∧
    Expands envArgs noOther (plain [.id "TF"]) (hsadd ["TF"] (plain [.num "10.0"])) ∧
    ∃ R, Expands envArgs noOther
        (plain ([.id "rtmSetTFinal", .p "("] ++ [.id "RTM"] ++ [.p ","] ++ [.id "TF"] ++
          [.p ")"]) ++ plain [.p ";"])
        (R ++ plain [.p ";"]) ∧
      (∀ R2, Expands envArgs noOther
        (plain ([.id "rtmSetTFinal", .p "("] ++ [.id "RTM"] ++ [.p ","] ++ [.id "TF"] ++
          [.p ")"]) ++ plain [.p ";"]) R2 →
        R2 = R ++ plain [.p ";"]) ∧
      R.map HTok.tok = [.p "(", .p "(", .p "(", .p "&", .id "model", .p ")", .p ")", .p "->",
        .id "Timing", .p ".", .id "tFinal", .p "=", .p "(", .num "10.0", .p ")", .p ")"] ∧
      groupAt (R.map HTok.tok) = some ([.p "(", .p "(", .p "&", .id "model", .p ")", .p ")",
        .p "->", .id "Timing", .p ".", .id "tFinal", .p "=", .p "(", .num "10.0", .p ")"],
        []) ∧
      groupAt [.p "(", .p "(", .p "&", .id "model", .p ")", .p ")",
        .p "->", .id "Timing", .p ".", .id "tFinal", .p "=", .p "(", .num "10.0", .p ")"]
        = some ([.p "(", .p "&", .id "model", .p ")"],
          [.p "->", .id "Timing", .p ".", .id "tFinal", .p "=", .p "(", .num "10.0",
            .p ")"]) ∧
      groupAt [.p "(", .num "10.0", .p ")"] = some ([.num "10.0"], []) ∧
      ParsesAs .expr (R.map HTok.tok)
        (.paren (.assign "=" (.dot (.arrow (.paren (.paren (.unary "&" (.var "model"))))
          "Timing") "tFinal") (.paren (.const "10.0")))) [] :=
  have hA : Expands envArgs noOther (plain [.id "RTM"])
      (hsadd ["RTM"] (plain [.p "(", .p "&", .id "model", .p ")"])) := ⟨6, by decide⟩
  have hA1 : Expands envArgs noOther
      (hsadd ["rtmSetTFinal"] (hsadd ["RTM"] (plain [.p "(", .p "&", .id "model", .p ")"])))
      (hsadd ["rtmSetTFinal"] (hsadd ["RTM"] (plain [.p "(", .p "&", .id "model", .p ")"]))) :=
    ⟨6, by decide⟩
  have hB : Expands envArgs noOther (plain [.id "TF"]) (hsadd ["TF"] (plain [.num "10.0"])) :=
    ⟨6, by decide⟩
  have hB1 : Expands envArgs noOther
      (hsadd ["rtmSetTFinal"] (hsadd ["TF"] (plain [.num "10.0"])))
      (hsadd ["rtmSetTFinal"] (hsadd ["TF"] (plain [.num "10.0"]))) := ⟨6, by decide⟩
  have h := rtmSetTFinal_expansion_hygienic envArgs noOther [.id "RTM"] [.id "TF"] _ _ _ _
    (plain [.p ";"]) (plain [.p ";"]) (by decide) (by decide) (by decide) (by decide)
    hA hA1 hB hB1 ⟨3, by decide⟩
  ⟨by decide, by decide, by decide, by decide, hA, hB, by
    obtain ⟨R, h1, h2, h3, hg, hp⟩ := h
    obtain ⟨h4, h5, h6⟩ := hg (by unfold balanced; decide) (by unfold balanced; decide)
    have h7 := (hp (.paren (.unary "&" (.var "model"))) (.const "10.0")
      ⟨16, by decide⟩ ⟨16, by decide⟩).1
    exact ⟨R, h1, h2, by simpa [hsadd, plain] using h3, by simpa [hsadd, plain] using h4,
      by simpa [hsadd, plain] using h5, by simpa [hsadd, plain] using h6, h7⟩⟩

/-! ### Part 3: `rt_atan2d_snf` -/

theorem arctan_div_of_re_pos (z : ℂ) (h : 0 < z.re) :
    Real.arctan (z.im / z.re) = Complex.arg z := by
  have h1 : |Complex.arg z| < Real.pi / 2 := Complex.abs_arg_lt_pi_div_two_iff.2 (Or.inl h)
  rw [← Complex.tan_arg z]
  exact Real.arctan_tan (abs_lt.1 h1).1 (abs_lt.1 h1).2

theorem rt_atan2d_snf_eq_arg (u0 u1 : ℝ) :
    rt_atan2d_snf u0 u1 = Complex.arg ⟨u1, u0⟩ := by
  unfold rt_atan2d_snf
  rcases lt_trichotomy u1 0 with h1 | h1 | h1
  · rw [if_neg (not_lt.2 h1.le), if_pos h1]
    have hn : Real.arctan (u0 / u1) = Complex.arg (-(⟨u1, u0⟩ : ℂ)) := by
      rw [← arctan_div_of_re_pos (-(⟨u1, u0⟩ : ℂ)) (by simpa using h1)]
      simp
    rcases lt_trichotomy u0 0 with h0 | h0 | h0
    · rw [if_neg (not_le.2 h0), hn, Complex.arg_neg_eq_arg_add_pi_of_im_neg (by simpa using h0)]
      ring
    · subst h0
      have : (⟨u1, 0⟩ : ℂ) = ((u1 : ℝ) : ℂ) := rfl
      rw [if_pos (le_refl _), this, Complex.arg_ofReal_of_neg h1]
      simp
    · rw [if_pos h0.le, hn, Complex.arg_neg_eq_arg_sub_pi_of_im_pos (by simpa using h0)]
      ring
  · subst h1
    rw [if_neg (lt_irrefl _), if_neg (lt_irrefl _)]
    rcases lt_trichotomy u0 0 with h0 | h0 | h0
    · rw [if_neg (not_lt.2 h0.le), if_pos h0, Complex.arg_of_im_neg (by simpa using h0)]
      simp
    · subst h0
      have : (⟨0, 0⟩ : ℂ) = 0 := rfl
      rw [if_neg (lt_irrefl _), if_neg (lt_irrefl _), this, Complex.arg_zero]
    · rw [if_pos h0, Complex.arg_of_im_pos (by simpa using h0)]
      simp
  · rw [if_pos h1]
    exact arctan_div_of_re_pos ⟨u1, u0⟩ h1

/-- Claim C4. The header `TestingPins_private.h` declares `rt_atan2d_snf` with
two `real_T` parameters and result `real_T`.  The function, as the spec
describes it (its body is not among the sources), is the four-quadrant
arctangent: for all `u0`, `u1` it is the argument, in radians in `(-π, π]`, of
the point with abscissa `u1` and ordinate `u0`; and it has the boundary values
`rt_atan2d_snf(0,1) = 0`, `rt_atan2d_snf(1,0) = π/2`, `rt_atan2d_snf(0,-1) = π`. -/
theorem rt_atan2d_snf_boundary :
    Line.text [.id "extern", .id "real_T", .id "rt_atan2d_snf", .p "(", .id "real_T",
      .id "u0", .p ",", .id "real_T", .id "u1", .p ")", .p ";"] ∈ TestingPins_private_h ∧
    (∀ u0 u1 : ℝ, rt_atan2d_snf u0 u1 = Complex.arg ⟨u1, u0⟩) ∧
    rt_atan2d_snf 0 1 = 0 ∧ rt_atan2d_snf 1 0 = Real.pi / 2 ∧
    rt_atan2d_snf 0 (-1) = Real.pi := by
  refine ⟨?_, rt_atan2d_snf_eq_arg, ?_, ?_, ?_⟩
  · simp [TestingPins_private_h, rt_atan2d_snf_decl]
  · simp [rt_atan2d_snf]
  · simp [rt_atan2d_snf]
  · simp [rt_atan2d_snf]

end SPOT
